import Mathlib

/-!
# Verification of `ompl_interface::ModelBasedPlanningContext`

Shallow embedding of `src/ompl/ompl_interface/src/model_based_planning_context.cpp`
(the MoveIt OMPL planning context and its `Follower` sequential layered planner),
together with proofs about the embedded definitions.

Nondeterministic effects of the C++ code (sampler outcomes, RNG draws, goal
sampling, termination-condition polling) are modelled by explicit oracle
streams: a run of the C++ code corresponds to one choice of oracle, and the
theorems quantify over all oracles.  The termination condition
(`PlannerTerminationCondition`) is modelled by a call counter and a deadline:
the k-th call of `ptc()` returns `true` iff `deadline ≤ k`, which captures the
monotone behaviour of `timedPlannerTerminationCondition`.
-/

namespace OmplInterface

/-- `ompl::base::PlannerStatus` values used by the translated code. -/
inductive PlannerStatus
  | EXACT_SOLUTION
  | APPROXIMATE_SOLUTION
  | TIMEOUT
  | INVALID_START
  | INVALID_GOAL
  | UNRECOGNIZED_GOAL_TYPE
deriving DecidableEq, Repr

/-- Subset of `moveit_msgs::MoveItErrorCodes` values relevant here. -/
inductive MoveItErrorCode
  | SUCCESS
  | PLANNING_FAILED
  | INVALID_GOAL_CONSTRAINTS
deriving DecidableEq, Repr

/-! ## Projection-evaluator grammar (`getProjectionEvaluator`, lines 76-116)

The C++ code tests `peval.find_first_of("link(") == 0`: `find_first_of`
searches for the first occurrence of ANY character of the argument, so the
test succeeds whenever the FIRST character of `peval` is one of
`l`, `i`, `n`, `k`, `(` — it does not test the prefix `link(`.
The embedding reproduces this faithfully. -/

/-- `std::string::find_first_of(set)` restricted to a successful search:
index of the first character of `s` that occurs in `set`. -/
def findFirstOfAux (set : List Char) : List Char → Nat → Option Nat
  | [], _ => none
  | c :: rest, i => if set.contains c then some i else findFirstOfAux set rest (i + 1)

/-- `s.find_first_of(set)` on strings (`none` stands for `npos`). -/
def findFirstOf (s set : String) : Option Nat :=
  findFirstOfAux set.toList s.toList 0

/-- `s.substr(pos, len)` (clamping, as for in-range C++ arguments). -/
def substrModel (s : String) (pos len : Nat) : String :=
  String.mk ((s.toList.drop pos).take len)

/-- `peval[peval.length() - 1] == ')'` (only evaluated on nonempty strings). -/
def lastCharIsParen (s : String) : Bool :=
  s.toList.getLastD ' ' = ')'

/-- Robot / joint-group model facts consulted by the projection parser. -/
structure ProjEnv where
  hasLinkModel : String → Bool
  hasJointModel : String → Bool
  variableCount : String → Nat

/-- The projection evaluator that gets constructed (`ProjectionEvaluatorLinkPose`
or `ProjectionEvaluatorJointValue`). -/
inductive ProjEval
  | linkPose (link : String)
  | jointValue (joints : List (String × Nat))
deriving DecidableEq, Repr

/-- The token stream that `std::stringstream >> v` yields after
`boost::replace_all(joints, ",", " ")`: maximal nonempty chunks between
blanks. -/
def jointTokens (s : String) : List String :=
  ((s.toList.map fun c => if c = ',' then ' ' else c).splitOn ' ').filterMap
    fun w => if w.isEmpty then none else some (String.mk w)

/-- The loop of lines 93-107: keep known joints of positive variable count
(zero-DOF joints and unknown joints are dropped with a log message). -/
def collectJoints (env : ProjEnv) (toks : List String) : List (String × Nat) :=
  toks.foldl
    (fun j v =>
      if env.hasJointModel v then
        let vc := env.variableCount v
        if vc > 0 then j ++ [(v, vc)] else j
      else j)
    []

/-- `ModelBasedPlanningContext::getProjectionEvaluator` (lines 76-116).
Returns the projection evaluator that would be allocated, `none` when the
function returns a null pointer. -/
def getProjectionEvaluator (env : ProjEnv) (peval : String) : Option ProjEval :=
  if findFirstOf peval "link(" == some 0 && lastCharIsParen peval then
    let linkName := substrModel peval 5 (peval.length - 6)
    if env.hasLinkModel linkName then some (ProjEval.linkPose linkName) else none
  else if findFirstOf peval "joints(" == some 0 && lastCharIsParen peval then
    let joints := substrModel peval 7 (peval.length - 8)
    let j := collectJoints env (jointTokens joints)
    if j.isEmpty then none else some (ProjEval.jointValue j)
  else none

/-- `ModelBasedPlanningContext::setProjectionEvaluator` (lines 64-74): the
projection that ends up registered as the default projection of the state
space (`none` = nothing installed). -/
def setProjectionEvaluator (env : ProjEnv) (stateSpacePresent : Bool) (peval : String) :
    Option ProjEval :=
  if stateSpacePresent then getProjectionEvaluator env peval else none

/-! ## `setPathConstraints` (lines 317-326) -/

/-- `kinematic_constraints::KinematicConstraintSet`, abstracted to the list of
constraint messages `add`ed to it (`γ` is the message type). -/
structure KCSet (γ : Type) where
  added : List γ
deriving DecidableEq, Repr

/-- The part of the context state that `setPathConstraints` touches. -/
structure PathConstraintState (γ : Type) where
  pathConstraints : Option (KCSet γ)
  pathConstraintsMsg : Option γ
deriving DecidableEq, Repr

/-- `ModelBasedPlanningContext::setPathConstraints` (lines 317-326): a fresh
constraint set is allocated, the message is added to it, the message copy is
stored, and `true` is returned.  The optional error-code output is never
written. -/
def setPathConstraints (γ : Type) (st : PathConstraintState γ) (msg : γ)
    (error : Option MoveItErrorCode) :
    PathConstraintState γ × Option MoveItErrorCode × Bool :=
  let _ := st
  ({ pathConstraints := some { added := [msg] }, pathConstraintsMsg := some msg }, error, true)

/-! ## `constructGoal` / `setGoalConstraints` (lines 272-295 and 328-358) -/

/-- Environment for goal construction: `γ` is the constraints-message type,
samplers are abstracted to `Nat` identifiers. -/
structure GoalEnv (γ : Type) where
  /-- `kinematic_constraints::mergeConstraints`. -/
  mergeConstraints : γ → γ → γ
  /-- Whether the `KinematicConstraintSet` built from a message is empty
  after `add` (line 340 `!kset->empty()`). -/
  ksetEmpty : γ → Bool
  /-- `spec_.constraint_sampler_manager_` (`none` = null handle) together
  with the outcome of `selectSampler` for each constraint message. -/
  samplerManager : Option (γ → Option Nat)

/-- The `ompl::base::Goal` object built by `constructGoal`. -/
inductive GoalRep (γ : Type)
  | constrainedGoalSampler (constraints : γ) (sampler : Nat)
  | goalSampleableRegionMux (goals : List (γ × Nat))
deriving DecidableEq, Repr

/-- The per-constraint sampler query of lines 277-287. -/
def goalSamplersOf (γ : Type) (env : GoalEnv γ) (goalConstraints : List γ) :
    List (γ × Nat) :=
  goalConstraints.filterMap fun c =>
    match env.samplerManager with
    | some select =>
      match select c with
      | some cs => some (c, cs)
      | none => none
    | none => none

/-- `ModelBasedPlanningContext::constructGoal` (lines 272-295). -/
def constructGoal (γ : Type) (env : GoalEnv γ) (goalConstraints : List γ) :
    Option (GoalRep γ) :=
  let goals := goalSamplersOf γ env goalConstraints
  match goals with
  | [] => none
  | [g] => some (GoalRep.constrainedGoalSampler g.1 g.2)
  | gs => some (GoalRep.goalSampleableRegionMux gs)

/-- Result of `setGoalConstraints`: return value, error-code output after the
call (the input value when nothing is written, mirroring the optional
out-parameter), the stored `goal_constraints_`, and the goal installed in the
simple setup. -/
structure SetGoalResult (γ : Type) where
  returned : Bool
  errorOut : Option MoveItErrorCode
  goalConstraintsStored : List γ
  goalSet : Option (GoalRep γ)
deriving DecidableEq, Repr

/-- Lines 334-342: each goal constraint message is merged with the path
constraints and kept iff the resulting kinematic constraint set is nonempty. -/
def mergedGoalSets (γ : Type) (env : GoalEnv γ) (goalConstraints : List γ)
    (pathConstraints : γ) : List γ :=
  goalConstraints.filterMap fun gc =>
    let constr := env.mergeConstraints gc pathConstraints
    if env.ksetEmpty constr then none else some constr

/-- `ModelBasedPlanningContext::setGoalConstraints` (lines 328-358).
`error` is the value behind the optional out-pointer (`none` = null pointer
was passed). -/
def setGoalConstraints (γ : Type) (env : GoalEnv γ) (goalConstraints : List γ)
    (pathConstraints : γ) (error : Option MoveItErrorCode) : SetGoalResult γ :=
  let stored := mergedGoalSets γ env goalConstraints pathConstraints
  if stored.isEmpty then
    { returned := false
      errorOut := error.map fun _ => MoveItErrorCode.INVALID_GOAL_CONSTRAINTS
      goalConstraintsStored := stored
      goalSet := none }
  else
    let goal := constructGoal γ env stored
    { returned := goal.isSome
      errorOut := error
      goalConstraintsStored := stored
      goalSet := goal }

/-! ## `allocPathConstrainedSampler` (lines 118-160) -/

/-- The state sampler that ends up being returned. -/
inductive SamplerResult
  | nullSampler
  | precomputed (id : Nat)
  | constrainedSampler (cs : Nat)
  | defaultUniform
deriving DecidableEq, Repr

/-- A constraint approximation: its `getStateSamplerAllocator` result. -/
structure ApproxModel where
  /-- The allocator (`none` = empty function), applied to the state space. -/
  allocator : Option (Nat → Option Nat)

/-- `ConstraintApproximationLibrary` lookup data. -/
structure LibraryModel where
  /-- `getConstraintApproximation(path_constraints_msg_)` (`none` = null). -/
  approximation : Option ApproxModel

/-- The constraints-approximation lookup chain of lines 130-146:
`constraints_library_` handle, `getConstraintApproximation` result, the
allocator it returns, and the sampler the allocator produces for the given
state space. -/
structure AllocEnv where
  stateSpace : Nat
  pathConstraintsPresent : Bool
  /-- `spec_.constraints_library_` (`none` = null). -/
  constraintsLibrary : Option LibraryModel
  /-- `spec_.constraint_sampler_manager_` (`none` = null) with the
  `selectSampler` outcome for the current scene/group/path constraints. -/
  samplerManager : Option (Option Nat)

/-- The sampler produced by the library path of lines 130-146, if any. -/
def librarySampler (env : AllocEnv) (ss : Nat) : Option Nat :=
  match env.constraintsLibrary with
  | none => none
  | some lib =>
    match lib.approximation with
    | none => none
    | some ca =>
      match ca.allocator with
      | none => none
      | some alloc => alloc ss

/-- `ModelBasedPlanningContext::allocPathConstrainedSampler` (lines 118-160).
The second component records whether `selectSampler` was invoked on the
constraint-sampler manager. -/
def allocPathConstrainedSampler (env : AllocEnv) (ss : Nat) : SamplerResult × Bool :=
  if env.stateSpace ≠ ss then (SamplerResult.nullSampler, false)
  else if env.pathConstraintsPresent then
    match librarySampler env ss with
    | some res => (SamplerResult.precomputed res, false)
    | none =>
      match env.samplerManager with
      | some managerOutcome =>
        match managerOutcome with
        | some cs => (SamplerResult.constrainedSampler cs, true)
        | none => (SamplerResult.defaultUniform, true)
      | none => (SamplerResult.defaultUniform, false)
  else (SamplerResult.defaultUniform, false)

/-! ## `interpolateSolution` (lines 238-245)

`og::PathGeometric` is abstracted to its state count and length;
`PathGeometric::interpolate` belongs to the external OMPL library and is
passed in as a function assumed (in the theorem) to satisfy its documented
contract: the resulting path has at least the requested number of states. -/

/-- Abstraction of `ompl::geometric::PathGeometric`. -/
structure PathGeo where
  stateCount : Nat
  length : ℚ
deriving DecidableEq, Repr

/-- The waypoint count requested at line 243:
`std::max((unsigned int)floor(0.5 + pg.length() / max_solution_segment_length_),
minimum_waypoint_count_)`. -/
def requestedWaypointCount (pathLength maxSegmentLength : ℚ) (minimumWaypointCount : Nat) : Nat :=
  max (Int.toNat ⌊1 / 2 + pathLength / maxSegmentLength⌋) minimumWaypointCount

/-- `ModelBasedPlanningContext::interpolateSolution` (lines 238-245).
`sol` is the stored solution path (`none` when `haveSolutionPath()` is
false); `interp` is `PathGeometric::interpolate`. -/
def interpolateSolution (sol : Option PathGeo) (maxSegmentLength : ℚ)
    (minimumWaypointCount : Nat) (interp : PathGeo → Nat → PathGeo) : Option PathGeo :=
  match sol with
  | none => none
  | some pg => some (interp pg (requestedWaypointCount pg.length maxSegmentLength minimumWaypointCount))

/-! ## `solve` and the termination condition (lines 754-849)

The planner engine (`ompl_simple_setup_.solve`, `ompl_parallel_plan_.solve`)
is an external collaborator; each of its invocations consumes the next entry
of the oracle's `engineResults` stream.  `ptc()` is modelled by a call
counter against `ptcDeadline`. -/

/-- One `ptc()` poll: `true` iff the deadline has passed after `t` earlier
polls (`timedPlannerTerminationCondition` is monotone). -/
def ptcFired (deadline t : Nat) : Bool :=
  decide (deadline ≤ t)

/-- Oracle for a `solve` run. -/
structure SolveOracle where
  ptcDeadline : Nat
  engineResults : List PlannerStatus
deriving Repr

/-- Observable outcome of a `solve` run.  `regTrace` records the sequence of
`registerTerminationCondition` (`true`) and `unregisterTerminationCondition`
(`false`) calls; `ptcAfter` is the `ptc_` member after return; `batchSizes`
lists the sizes of the parallel batches that were actually launched in the
`count > max_planning_threads_` branch. -/
structure SolveOutcome where
  success : Bool
  batchSizes : List Nat
  regTrace : List Bool
  ptcAfter : Option Nat
deriving DecidableEq, Repr

/-- `registerTerminationCondition` (lines 832-836): stores the condition. -/
def registerTerminationCondition (ptcMember : Option Nat) (ptcId : Nat) : Option Nat :=
  let _ := ptcMember
  some ptcId

/-- `unregisterTerminationCondition` (lines 838-842): `ptc_ = NULL`. -/
def unregisterTerminationCondition (ptcMember : Option Nat) : Option Nat :=
  let _ := ptcMember
  none

/-- `terminateSolve` (lines 844-849): under the lock, calls `terminate()` on
the registered condition if there is one.  The boolean reports whether a
condition was terminated (no-op when `ptc_` is null). -/
def terminateSolve (ptcMember : Option Nat) : Option Nat × Bool :=
  match ptcMember with
  | some p => (some p, true)
  | none => (none, false)

/-- The `for (int i = 0 ; i < n && ptc() == false ; ++i)` batch loop of lines
797-808.  Arguments: remaining iterations, batch size, ptc deadline and call
counter, pending engine results, accumulated `result`, batch-size trace.
Returns the accumulator, trace, counter and remaining results. -/
def batchLoop (deadline batchSize : Nat) :
    Nat → Nat → List PlannerStatus → Bool → List Nat →
    Bool × List Nat × Nat × List PlannerStatus
  | 0, t, res, acc, sizes => (acc, sizes, t, res)
  | m + 1, t, res, acc, sizes =>
    if ptcFired deadline t then (acc, sizes, t + 1, res)
    else
      let r := res.headD PlannerStatus.TIMEOUT
      batchLoop deadline batchSize m (t + 1) res.tail
        (acc && (r == PlannerStatus.EXACT_SOLUTION)) (sizes ++ [batchSize])

/-- `ModelBasedPlanningContext::solve(timeout, count)` (lines 754-830) with
`max_planning_threads_ = maxThreads`.  `timeout` only affects the deadline,
which the oracle supplies directly, so it is a ghost parameter here. -/
def solveModel (maxThreads timeout count : Nat) (o : SolveOracle) : SolveOutcome :=
  let _ := timeout
  if count ≤ 1 then
    -- single attempt: register, solve, unregister
    let ptc1 := registerTerminationCondition none 0
    let r := o.engineResults.headD PlannerStatus.TIMEOUT
    { success := r == PlannerStatus.EXACT_SOLUTION
      batchSizes := []
      regTrace := [true, false]
      ptcAfter := unregisterTerminationCondition ptc1 }
  else if count ≤ maxThreads then
    -- one parallel plan over `count` planners
    let ptc1 := registerTerminationCondition none 0
    let r := o.engineResults.headD PlannerStatus.TIMEOUT
    { success := r == PlannerStatus.EXACT_SOLUTION
      batchSizes := [count]
      regTrace := [true, false]
      ptcAfter := unregisterTerminationCondition ptc1 }
  else
    -- batched parallel solve
    let ptc1 := registerTerminationCondition none 0
    let n := count / maxThreads
    let full := batchLoop o.ptcDeadline maxThreads n 0 o.engineResults true []
    let acc := full.1
    let sizes := full.2.1
    let t := full.2.2.1
    let res := full.2.2.2
    let rem := count % maxThreads
    if rem ≠ 0 then
      if ptcFired o.ptcDeadline t then
        { success := acc, batchSizes := sizes, regTrace := [true, false]
          ptcAfter := unregisterTerminationCondition ptc1 }
      else
        let r := res.headD PlannerStatus.TIMEOUT
        { success := acc && (r == PlannerStatus.EXACT_SOLUTION)
          batchSizes := sizes ++ [rem]
          regTrace := [true, false]
          ptcAfter := unregisterTerminationCondition ptc1 }
    else
      { success := acc, batchSizes := sizes, regTrace := [true, false]
        ptcAfter := unregisterTerminationCondition ptc1 }

/-- Register/unregister traces that are correctly bracketed starting from
`d` currently-registered conditions: a register only happens with none
registered, an unregister only with exactly one, and at the end nothing is
registered. -/
def regBalanced : List Bool → Nat → Bool
  | [], d => d == 0
  | true :: r, d => d == 0 && regBalanced r 1
  | false :: r, d => d == 1 && regBalanced r 0

/-! ## The `Follower` sequential layered planner (lines 385-695)

States are drawn from an abstract type `σ`.  `si_->isValid` and
`si_->checkMotion` are deterministic predicates of the environment; sampler
outcomes (`sample`/`project` leaving a state in `work_area`), `pis_`
start/goal states, the PDF draws and the goal-bias coin flips are oracle
streams. -/

/-- Deterministic part of the space information used by the Follower. -/
structure FollowEnv (σ : Type) where
  isValid : σ → Bool
  checkMotion : σ → σ → Bool

/-- Oracle for one `Follower::follow` run over `n` samplers. -/
structure FollowOracle (σ : Type) where
  /-- `pdef_->getGoal()->hasType(GOAL_SAMPLEABLE_REGION)`. -/
  goalSampleable : Bool
  /-- The (valid) start states delivered by `pis_.nextStart()`. -/
  startStates : List σ
  /-- `ptc()` returns `true` from the `ptcDeadline`-th poll on. -/
  ptcDeadline : Nat
  /-- Per sampling attempt, the state left in `work_area` when
  `sample`/`project` succeeded (`none` = the calls returned `false`). -/
  sampleEvents : List (Option σ)
  /-- Successive results of `pis_.nextGoal()` (`none` = null). -/
  goalEvents : List (Option σ)
  /-- Successive results of `pdf_sets.sample(rng_.uniform01())`. -/
  pdfChoices : List Nat
  /-- Successive results of `rng_.uniform01() < goalBias_`. -/
  coinFlips : List Bool

/-- `connections[i][j]` with `std::vector` out-of-range reads mapped to `[]`. -/
def cAt (conns : List (List (List Nat))) (i j : Nat) : List Nat :=
  (conns.getD i []).getD j []

/-- `sets[i][j]` (with a junk default outside the stored range). -/
def setsAt {σ : Type} [Inhabited σ] (sets : List (List σ)) (i j : Nat) : σ :=
  (sets.getD i []).getD j default

/-- `is_start[i][j]` (source stores `int` 0/1; modelled as `Bool`). -/
def bAt (isStart : List (List Bool)) (i j : Nat) : Bool :=
  (isStart.getD i []).getD j false

/-- `is_start[i][j] = 1`. -/
def bSet (isStart : List (List Bool)) (i j : Nat) : List (List Bool) :=
  isStart.set i ((isStart.getD i []).set j true)

/-- `connections[i][j].push_back(k)`. -/
def connPush (conns : List (List (List Nat))) (i j k : Nat) : List (List (List Nat)) :=
  conns.set i ((conns.getD i []).set j (cAt conns i j ++ [k]))

/-- `Follower::propagateStartInfo` (lines 641-655).  The C++ recursion always
advances `set_index`, so a fuel of `connections.size()` makes the translation
total without changing its behaviour. -/
def propagateStartInfo (conns : List (List (List Nat))) :
    Nat → Nat → Nat → List (List Bool) → List (List Bool)
  | 0, _, _, isStart => isStart
  | fuel + 1, setIndex, elemIndex, isStart =>
    if conns.length ≤ setIndex then isStart
    else
      (cAt conns setIndex elemIndex).foldl
        (fun acc k =>
          propagateStartInfo conns fuel (setIndex + 1) k (bSet acc (setIndex + 1) k))
        isStart

/-- A `for`-loop that stops at the first success (the shape of the loops in
`findSolutionPath` and `computeSolution`). -/
def firstSome {α β : Type _} (f : α → Option β) : List α → Option β
  | [] => none
  | x :: l =>
    match f x with
    | some b => some b
    | none => firstSome f l

/-- `Follower::findSolutionPath` (lines 657-677).  Returns the states that the
C++ code would `path.append` (goal first, since appends happen on the way out
of the recursion); `none` when the function returns `false`.  Fuel as above. -/
def findSolutionPath {σ : Type} [Inhabited σ] (sets : List (List σ))
    (conns : List (List (List Nat))) :
    Nat → Nat → Nat → Option (List σ)
  | 0, _, _ => none
  | fuel + 1, setIndex, elemIndex =>
    if setIndex = conns.length then
      some [setsAt sets setIndex elemIndex]
    else
      firstSome
        (fun k =>
          match findSolutionPath sets conns fuel (setIndex + 1) k with
          | some p => some (p ++ [setsAt sets setIndex elemIndex])
          | none => none)
        (cAt conns setIndex elemIndex)

/-- `Follower::computeSolution` (lines 679-695): first start element whose
depth-first search reaches the goal wins; the path is reversed before being
added to the problem definition.  `some p` means `addSolutionPath` was called
with `p`; `none` means the fresh path was deleted and nothing recorded. -/
def computeSolution {σ : Type} [Inhabited σ] (sets : List (List σ))
    (conns : List (List (List Nat))) : Option (List σ) :=
  (firstSome (fun i => findSolutionPath sets conns (conns.length + 1) 0 i)
      (List.range (sets.getD 0 []).length)).map List.reverse

/-- The inner `while (sets[i + 1].empty() && !ptc())` seeding loop of lines
479-490 for one layer.  Each iteration polls `ptc()` once and makes one
sampling attempt; a produced state is kept when `si_->isValid` accepts it.
Returns the layer contents, the ptc counter, and the remaining events. -/
def seedOne {σ : Type} (deadline : Nat) (isValid : σ → Bool) :
    Nat → List (Option σ) → List σ × Nat × List (Option σ)
  | t, evs =>
    if ptcFired deadline t then ([], t + 1, evs)
    else
      match evs.headD none with
      | some s =>
        if isValid s then ([s], t + 1, evs.tail)
        else seedOne deadline isValid (t + 1) evs.tail
      | none => seedOne deadline isValid (t + 1) evs.tail
termination_by t _ => deadline - t
decreasing_by
  all_goals simp only [ptcFired, decide_eq_true_eq] at *
  all_goals omega

/-- The `for (std::size_t i = 0 ; i < samplers.size() && !ptc() ; ++i)`
seeding loop of lines 477-491: layer `i+1` is filled from sampler `i`.  The
loop condition polls `ptc()` once per iteration. -/
def seedLoop {σ : Type} (deadline : Nat) (isValid : σ → Bool) (n : Nat) :
    Nat → List (List σ) → Nat → List (Option σ) →
    List (List σ) × Nat × List (Option σ)
  | i, sets, t, evs =>
    if i < n then
      if ptcFired deadline t then (sets, t + 1, evs)
      else
        let res := seedOne deadline isValid (t + 1) evs
        seedLoop deadline isValid n (i + 1) (sets.set (i + 1) res.1) res.2.1 res.2.2
    else (sets, t, evs)
termination_by i _ _ _ => n - i

/-- The connection rows built by the first-sample heuristic (lines 510-519):
`connections[i]` is sized to `sets[i]` and the edge `0 → 0` is recorded iff
`checkMotion(sets[i][0], sets[i+1][0])`. -/
def initialConnRows {σ : Type} [Inhabited σ] (checkMotion : σ → σ → Bool)
    (sets : List (List σ)) : List (List (List Nat)) :=
  (List.range (sets.length - 1)).map fun i =>
    if checkMotion (setsAt sets i 0) (setsAt sets (i + 1) 0) then
      (List.replicate (sets.getD i []).length ([] : List Nat)).set 0 [0]
    else List.replicate (sets.getD i []).length ([] : List Nat)

/-- The `first_sample_worked` flag of the same loop. -/
def initialConnOk {σ : Type} [Inhabited σ] (checkMotion : σ → σ → Bool)
    (sets : List (List σ)) : Bool :=
  (List.range (sets.length - 1)).all fun i =>
    checkMotion (setsAt sets i 0) (setsAt sets (i + 1) 0)


/-- Lines 536-539: further connections from the remaining start states to the
first state of layer 1. -/
def extraStartConnections {σ : Type} [Inhabited σ] (checkMotion : σ → σ → Bool)
    (sets : List (List σ)) (conns : List (List (List Nat))) : List (List (List Nat)) :=
  (List.range (sets.getD 0 []).length).foldl
    (fun acc i =>
      if i = 0 then acc
      else if checkMotion (setsAt sets 0 i) (setsAt sets 1 0) then connPush acc 0 i 0
      else acc)
    conns

/-- Lines 542-545: `is_start` initialised to all ones for layer 0 and all
zeros elsewhere. -/
def initIsStart {σ : Type} (sets : List (List σ)) : List (List Bool) :=
  (List.range sets.length).map fun i =>
    if i = 0 then List.replicate (sets.getD 0 []).length true
    else List.replicate (sets.getD i []).length false

/-- Lines 548-549: start info propagated from every start state. -/
def initialPropagation (conns : List (List (List Nat))) (startCount : Nat)
    (isStart : List (List Bool)) : List (List Bool) :=
  (List.range startCount).foldl
    (fun acc i => propagateStartInfo conns conns.length 0 i acc) isStart

/-- Mutable state of the incremental-expansion loop (lines 552-620). -/
structure P4State (σ : Type) where
  sets : List (List σ)
  conns : List (List (List Nat))
  isStart : List (List Bool)
  addingGoals : Bool
  sampleEvents : List (Option σ)
  goalEvents : List (Option σ)
  pdfChoices : List Nat
  coinFlips : List Bool

/-- One iteration of the lines 587-596 loop: try a local motion from state
`i` of layer `index - 1` to the newly added last state of layer `index`
(`sets[index].back()`, i.e. `setsAt sets index addedElem`); on success record
the forward edge and, if the predecessor is start-reachable, mark the new
state and propagate. -/
def connectPrev {σ : Type} [Inhabited σ] (env : FollowEnv σ) (sets : List (List σ))
    (index addedElem : Nat)
    (acc : List (List (List Nat)) × List (List Bool)) (i : Nat) :
    List (List (List Nat)) × List (List Bool) :=
  if env.checkMotion (setsAt sets (index - 1) i) (setsAt sets index addedElem) then
    let conns2 := connPush acc.1 (index - 1) i addedElem
    if bAt acc.2 (index - 1) i then
      let is2 := bSet acc.2 index addedElem
      (conns2, propagateStartInfo conns2 conns2.length index addedElem is2)
    else (conns2, acc.2)
  else acc

/-- One iteration of the lines 598-611 loop: try a local motion from the new
state to state `i` of layer `index + 1`; on success record the edge and
propagate start-reachability when appropriate. -/
def connectNext {σ : Type} [Inhabited σ] (env : FollowEnv σ) (sets : List (List σ))
    (index addedElem : Nat)
    (acc : List (List (List Nat)) × List (List Bool)) (i : Nat) :
    List (List (List Nat)) × List (List Bool) :=
  if env.checkMotion (setsAt sets index addedElem) (setsAt sets (index + 1) i) then
    let conns2 := connPush acc.1 index addedElem i
    if bAt acc.2 index addedElem && !bAt acc.2 (index + 1) i then
      let is2 := bSet acc.2 (index + 1) i
      (conns2, propagateStartInfo conns2 conns2.length (index + 1) i is2)
    else (conns2, acc.2)
  else acc

/-- Lines 583-619: work done `if (added)` — connect the last element of layer
`index` (`sets[index].back()`, which is the newly pushed state only when the
push happened at `index` itself) to the previous layer (and, below the goal
layer, to the next layer), propagating start info, then scan the goal layer
for a start-reachable state.  Returns the updated state and the `solved`
flag. -/
def afterAdd {σ : Type} [Inhabited σ] (env : FollowEnv σ) (st : P4State σ)
    (index : Nat) : P4State σ × Bool :=
  let step2 : List (List (List Nat)) × List (List Bool) :=
    if index < st.sets.length - 1 then
      (List.range (st.sets.getD (index + 1) []).length).foldl
        (connectNext env st.sets index ((st.sets.getD index []).length - 1))
        ((List.range (st.sets.getD (index - 1) []).length).foldl
          (connectPrev env st.sets index ((st.sets.getD index []).length - 1))
          (st.conns, st.isStart))
    else
      (List.range (st.sets.getD (index - 1) []).length).foldl
        (connectPrev env st.sets index ((st.sets.getD index []).length - 1))
        (st.conns, st.isStart)
  ({ st with conns := step2.1, isStart := step2.2 },
   (step2.2.getD (st.sets.length - 1) []).any fun b => b)

/-- One iteration of the `while (!ptc() && !solved)` body (lines 555-619),
after the `ptc()` poll.  Returns the updated state and the `solved` flag. -/
def p4Body {σ : Type} [Inhabited σ] (env : FollowEnv σ) (st : P4State σ) :
    P4State σ × Bool :=
  let goalIndex := st.sets.length - 1
  let index := st.pdfChoices.headD goalIndex
  let pdfRest := st.pdfChoices.tail
  -- `index == goal_index || (adding_goals && rng_.uniform01() < goalBias_)`:
  -- the coin is only drawn when the first disjunct is false and goals are
  -- still being added (C++ short-circuit evaluation).
  let takeGoal : Bool :=
    index == goalIndex || (st.addingGoals && st.coinFlips.headD false)
  let flips2 :=
    if index == goalIndex then st.coinFlips
    else if st.addingGoals then st.coinFlips.tail
    else st.coinFlips
  if takeGoal then
    match st.goalEvents.headD none with
    | some g =>
      let st2 : P4State σ :=
        { st with
          sets := st.sets.set goalIndex (st.sets.getD goalIndex [] ++ [g])
          isStart := st.isStart.set goalIndex (st.isStart.getD goalIndex [] ++ [false])
          goalEvents := st.goalEvents.tail
          pdfChoices := pdfRest
          coinFlips := flips2 }
      -- The `if (added)` block (lines 583-619) uses the pdf-drawn `index`,
      -- NOT `goal_index`: when the goal-bias coin fired with
      -- `index != goal_index`, it re-examines the old last element of layer
      -- `index` and never touches the goal state pushed just above.
      afterAdd env st2 index
    | none =>
      ({ st with addingGoals := false, goalEvents := st.goalEvents.tail,
                 pdfChoices := pdfRest, coinFlips := flips2 }, false)
  else
    match st.sampleEvents.headD none with
    | some s =>
      if env.isValid s then
        let st2 : P4State σ :=
          { st with
            sets := st.sets.set index (st.sets.getD index [] ++ [s])
            conns := st.conns.set index (st.conns.getD index [] ++ [[]])
            isStart := st.isStart.set index (st.isStart.getD index [] ++ [false])
            sampleEvents := st.sampleEvents.tail
            pdfChoices := pdfRest
            coinFlips := flips2 }
        afterAdd env st2 index
      else
        ({ st with sampleEvents := st.sampleEvents.tail,
                   pdfChoices := pdfRest, coinFlips := flips2 }, false)
    | none =>
      ({ st with sampleEvents := st.sampleEvents.tail,
                 pdfChoices := pdfRest, coinFlips := flips2 }, false)

/-- The `while (!ptc() && !solved)` loop of lines 555-620: one `ptc()` poll
per check, then the body.  Returns the final state and `solved`. -/
def p4Loop {σ : Type} [Inhabited σ] (env : FollowEnv σ) (deadline : Nat) :
    Nat → P4State σ → P4State σ × Bool
  | t, st =>
    if ptcFired deadline t then (st, false)
    else
      match p4Body env st with
      | (st2, true) => (st2, true)
      | (st2, false) => p4Loop env deadline (t + 1) st2
termination_by t _ => deadline - t
decreasing_by
  all_goals simp only [ptcFired, decide_eq_true_eq] at *
  all_goals omega

/-- Result of a `Follower::follow` run.  `path` is the solution recorded via
`pdef_->addSolutionPath` (if any); `sets` and `conns` expose the final layers
and connection structure so that properties of the path can be stated. -/
structure FollowResult (σ : Type) where
  status : PlannerStatus
  path : Option (List σ)
  sets : List (List σ)
  conns : List (List (List Nat))
deriving DecidableEq, Repr

/-- Lines 506-626 from the point where a goal state has been appended to the
last layer: the first-sample heuristic (lines 510-526), else the
incremental-expansion loop (lines 528-625).  `t1` is the ptc call counter on
entry to the loop; `evs1` the remaining sampling events. -/
def followPhase2 {σ : Type} [Inhabited σ] (env : FollowEnv σ) (deadline t1 : Nat)
    (evs1 goalRest : List (Option σ)) (pdfChoices : List Nat) (coinFlips : List Bool)
    (sets2 : List (List σ)) : FollowResult σ :=
  if initialConnOk env.checkMotion sets2 then
    { status := PlannerStatus.EXACT_SOLUTION
      path := computeSolution sets2 (initialConnRows env.checkMotion sets2)
      sets := sets2
      conns := initialConnRows env.checkMotion sets2 }
  else
    let conns1 := extraStartConnections env.checkMotion sets2
      (initialConnRows env.checkMotion sets2)
    let st0 : P4State σ :=
      { sets := sets2
        conns := conns1
        isStart := initialPropagation conns1 (sets2.getD 0 []).length (initIsStart sets2)
        addingGoals := true
        sampleEvents := evs1
        goalEvents := goalRest
        pdfChoices := pdfChoices
        coinFlips := coinFlips }
    let r2 := p4Loop env deadline t1 st0
    if r2.2 then
      { status := PlannerStatus.EXACT_SOLUTION
        path := computeSolution r2.1.sets r2.1.conns
        sets := r2.1.sets
        conns := r2.1.conns }
    else
      { status := PlannerStatus.TIMEOUT, path := none
        sets := r2.1.sets, conns := r2.1.conns }

/-- `Follower::follow(samplers, ptc)` (lines 446-639) with `n = samplers.size()`. -/
def followRun {σ : Type} [Inhabited σ] (env : FollowEnv σ) (n : Nat)
    (o : FollowOracle σ) : FollowResult σ :=
  if !o.goalSampleable then
    { status := PlannerStatus.UNRECOGNIZED_GOAL_TYPE, path := none, sets := [], conns := [] }
  else
    if o.startStates.isEmpty then
      { status := PlannerStatus.INVALID_START, path := none
        sets := o.startStates :: List.replicate (n + 1) ([] : List σ), conns := [] }
    else
      let setsInit := o.startStates :: List.replicate (n + 1) ([] : List σ)
      let r1 := seedLoop o.ptcDeadline env.isValid n 0 setsInit 0 o.sampleEvents
      let sets1 := r1.1
      let t1 := r1.2.1
      let evs1 := r1.2.2
      if ptcFired o.ptcDeadline t1 then
        { status := PlannerStatus.TIMEOUT, path := none, sets := sets1, conns := [] }
      else
        match o.goalEvents.headD none with
        | none =>
          { status := PlannerStatus.INVALID_GOAL, path := none, sets := sets1, conns := [] }
        | some g =>
          followPhase2 env o.ptcDeadline (t1 + 1) evs1 o.goalEvents.tail
            o.pdfChoices o.coinFlips (sets1.set (n + 1) (sets1.getD (n + 1) [] ++ [g]))

/-- `ModelBasedPlanningContext::follow(timeout, count)` (lines 702-722):
constructs a Follower, registers a timed termination condition, runs
`follow`, unregisters.  `timeout` only feeds the deadline (supplied by the
oracle); the `count` argument appears in the signature exactly as in the
source. -/
def contextFollow {σ : Type} [Inhabited σ] (env : FollowEnv σ) (n : Nat)
    (o : FollowOracle σ) (timeout count : Nat) : SolveOutcome × FollowResult σ :=
  let _ := timeout
  let _ := count
  let ptc1 := registerTerminationCondition none 0
  let fr := followRun env n o
  ({ success := fr.status == PlannerStatus.EXACT_SOLUTION
     batchSizes := []
     regTrace := [true, false]
     ptcAfter := unregisterTerminationCondition ptc1 }, fr)

/-! ## Specification-side predicates and proof-support definitions -/

/-- The spec's notion (§4.A, §6) of a recognized projection expression: the
string has the EXACT prefix `p` (contrast with `find_first_of` in the code). -/
def hasExactPrefix (s p : String) : Bool :=
  s.toList.take p.toList.length == p.toList

/-- Every PDF draw is a layer index in `1 .. n+1`, as guaranteed by the
`PDF` data structure populated at lines 530-534 (only indices `1 ..
sets.size()-1` are ever added to it). -/
def OracleWF {σ : Type} (o : FollowOracle σ) (n : Nat) : Prop :=
  ∀ c ∈ o.pdfChoices, 1 ≤ c ∧ c ≤ n + 1

/-- Forward chains through the recorded connections: `ChainR conns i j a b`
means layer element `(a, b)` is reachable from `(i, j)` along recorded
forward edges. -/
inductive ChainR (conns : List (List (List Nat))) : Nat → Nat → Nat → Nat → Prop
  | refl (i j : Nat) : ChainR conns i j i j
  | snoc {i j a b k : Nat} : ChainR conns i j a b → k ∈ cAt conns a b →
      ChainR conns i j (a + 1) k

/-- `(i, j)` can reach the goal layer (`conns.length`) along recorded edges. -/
inductive ReachGoal (conns : List (List (List Nat))) : Nat → Nat → Prop
  | base (j : Nat) : ReachGoal conns conns.length j
  | step {i j k : Nat} : k ∈ cAt conns i j → ReachGoal conns (i + 1) k →
      ReachGoal conns i j

/-- Monotone growth of the connection structure. -/
def connLE (c1 c2 : List (List (List Nat))) : Prop :=
  ∀ i j k, k ∈ cAt c1 i j → k ∈ cAt c2 i j

/-- Every recorded edge joins in-range elements that passed `checkMotion`. -/
def edgeOK {σ : Type} [Inhabited σ] (cm : σ → σ → Bool) (sets : List (List σ))
    (conns : List (List (List Nat))) : Prop :=
  ∀ i j k, k ∈ cAt conns i j →
    j < (sets.getD i []).length ∧ k < (sets.getD (i + 1) []).length ∧
    cm (setsAt sets i j) (setsAt sets (i + 1) k) = true

/-- `(i, j)` is reachable from some start-layer element. -/
def StartReach (len0 : Nat) (conns : List (List (List Nat))) (i j : Nat) : Prop :=
  ∃ s, s < len0 ∧ ChainR conns 0 s i j

/-- Soundness of `is_start`: a marked element is genuinely start-reachable. -/
def ReachInv (len0 : Nat) (conns : List (List (List Nat)))
    (isStart : List (List Bool)) : Prop :=
  ∀ i j, bAt isStart i j = true → StartReach len0 conns i j

/-- The shape of the paths returned by `findSolutionPath`: the goal element
first, then one element per layer back down to `(i, j)` (appends happen on
the way out of the recursion). -/
inductive PathRel {σ : Type} [Inhabited σ] (sets : List (List σ))
    (conns : List (List (List Nat))) : Nat → Nat → List σ → Prop
  | goal (j : Nat) : PathRel sets conns conns.length j [setsAt sets conns.length j]
  | cons {i j k : Nat} {p : List σ} : k ∈ cAt conns i j →
      PathRel sets conns (i + 1) k p →
      PathRel sets conns i j (p ++ [setsAt sets i j])

/-- Invariant of the incremental-expansion loop (phase 4). -/
structure P4Inv {σ : Type} [Inhabited σ] (cm : σ → σ → Bool) (len0 n : Nat)
    (st : P4State σ) : Prop where
  slen : st.sets.length = n + 2
  clen : st.conns.length = n + 1
  len0eq : (st.sets.getD 0 []).length = len0
  hrow : ∀ i, i < st.conns.length →
    (st.conns.getD i []).length = (st.sets.getD i []).length
  hedge : edgeOK cm st.sets st.conns
  hreach : ReachInv len0 st.conns st.isStart
  pdf : ∀ c ∈ st.pdfChoices, 1 ≤ c ∧ c ≤ n + 1
  hnon : ∀ i, i < st.sets.length → 0 < (st.sets.getD i []).length

/-! ### Concrete fixtures used by the witnesses -/

/-- Robot model with one link `mylink` and no joints. -/
def envC3 : ProjEnv :=
  { hasLinkModel := fun s => s == "mylink"
    hasJointModel := fun _ => false
    variableCount := fun _ => 0 }

/-- Goal environment whose manager never finds a sampler. -/
def envC4 : GoalEnv Nat :=
  { mergeConstraints := fun a b => a + b
    ksetEmpty := fun _ => false
    samplerManager := some fun _ => none }

/-- Allocation environment whose approximation library yields sampler `7`. -/
def envC5 : AllocEnv :=
  { stateSpace := 5
    pathConstraintsPresent := true
    constraintsLibrary := some { approximation := some { allocator := some fun _ => some 7 } }
    samplerManager := some (some 3) }

/-- Termination fires before the first batch check. -/
def oracleC6 : SolveOracle :=
  { ptcDeadline := 0, engineResults := [] }

/-- Termination fires immediately; engines would all fail. -/
def oracleC2x : SolveOracle :=
  { ptcDeadline := 0
    engineResults := [PlannerStatus.TIMEOUT, PlannerStatus.TIMEOUT, PlannerStatus.TIMEOUT] }

/-- No termination; all engine runs succeed. -/
def oracleC2w : SolveOracle :=
  { ptcDeadline := 50
    engineResults := [PlannerStatus.EXACT_SOLUTION, PlannerStatus.EXACT_SOLUTION,
                      PlannerStatus.EXACT_SOLUTION] }

/-- Follower environment where everything is valid and connectable. -/
def envFW : FollowEnv Nat :=
  { isValid := fun _ => true, checkMotion := fun _ _ => true }

/-- A trivial follower run: no samplers, one start state, one goal state. -/
def oracleFW : FollowOracle Nat :=
  { goalSampleable := true, startStates := [10], ptcDeadline := 20
    sampleEvents := [], goalEvents := [some 99], pdfChoices := [], coinFlips := [] }

/-- An interpolation function satisfying the OMPL `PathGeometric::interpolate`
contract (at least the requested number of states, never removing any). -/
def interpW : PathGeo → Nat → PathGeo :=
  fun p c => { stateCount := max c p.stateCount, length := p.length }

/-! # Theorems

First some list bookkeeping lemmas (indexing through `getD`/`set`/append and
first-success folds), then the per-claim results. -/

theorem getD_set_self {α : Type _} (l : List α) (i : Nat) (x d : α) (h : i < l.length) :
    (l.set i x).getD i d = x := by
  induction l generalizing i with
  | nil => simp at h
  | cons a t ih =>
    cases i with
    | zero => rfl
    | succ m => exact ih m (by simpa using h)

theorem getD_set_ne {α : Type _} (l : List α) (i j : Nat) (x d : α) (h : i ≠ j) :
    (l.set i x).getD j d = l.getD j d := by
  induction l generalizing i j with
  | nil => simp
  | cons a t ih =>
    cases i with
    | zero =>
      cases j with
      | zero => exact absurd rfl h
      | succ m => rfl
    | succ m =>
      cases j with
      | zero => rfl
      | succ k => exact ih m k fun hh => h (by rw [hh])

theorem set_of_length_le {α : Type _} (l : List α) (i : Nat) (x : α)
    (h : l.length ≤ i) : l.set i x = l := by
  induction l generalizing i with
  | nil => rfl
  | cons a t ih =>
    cases i with
    | zero => simp at h
    | succ m => simpa using ih m (by simpa using h)

theorem getD_append_last {α : Type _} (l : List α) (x d : α) :
    (l ++ [x]).getD l.length d = x := by
  rw [List.getD_append_right _ _ _ _ (Nat.le_refl _)]
  simp

theorem getD_mem {α : Type _} (l : List α) (j : Nat) (d : α) (h : j < l.length) :
    l.getD j d ∈ l := by
  rw [List.getD_eq_getElem l d h]
  exact List.getElem_mem h

theorem getD_zero_headD {α : Type _} (l : List α) (d : α) : l.getD 0 d = l.headD d := by
  cases l <;> rfl

theorem firstSome_eq_some {α β : Type _} (f : α → Option β) :
    ∀ (l : List α) (p : β), firstSome f l = some p → ∃ x ∈ l, f x = some p := by
  intro l
  induction l with
  | nil =>
    intro p h
    simp [firstSome] at h
  | cons a t ih =>
    intro p h
    rw [firstSome] at h
    cases hfa : f a with
    | some q =>
      rw [hfa] at h
      have h2 : some q = some p := h
      injection h2 with h3
      exact ⟨a, List.mem_cons_self _ _, by rw [hfa, h3]⟩
    | none =>
      rw [hfa] at h
      have h2 : firstSome f t = some p := h
      obtain ⟨x, hx, hfx⟩ := ih p h2
      exact ⟨x, List.mem_cons_of_mem _ hx, hfx⟩

theorem firstSome_isSome {α β : Type _} (f : α → Option β) :
    ∀ (l : List α) (x : α), x ∈ l → (f x).isSome = true →
      (firstSome f l).isSome = true := by
  intro l
  induction l with
  | nil =>
    intro x hx hfx
    simp at hx
  | cons a t ih =>
    intro x hx hfx
    rw [firstSome]
    cases hfa : f a with
    | some q => rfl
    | none =>
      show (firstSome f t).isSome = true
      rcases List.mem_cons.mp hx with h | h
      · rw [h, hfa] at hfx
        simp at hfx
      · exact ih x h hfx

theorem foldl_preserves {α β : Type _} (P : β → Prop) (f : β → α → β) (l : List α)
    (h : ∀ b a, a ∈ l → P b → P (f b a)) : ∀ b, P b → P (l.foldl f b) := by
  induction l with
  | nil => intro b hb; exact hb
  | cons x t ih =>
    intro b hb
    rw [List.foldl_cons]
    exact ih (fun b a ha hb2 => h b a (List.mem_cons_of_mem _ ha) hb2) _
      (h b x (List.mem_cons_self _ _) hb)

/-! ## C10 — `setPathConstraints` -/

/-- C10: for every constraints message, `setPathConstraints` returns `true`,
leaves the optional error-code output untouched, and unconditionally replaces
the stored path-constraint set (a fresh set containing exactly the new
message) and the stored path-constraints message. -/
theorem setPathConstraints_unconditional (γ : Type) (st : PathConstraintState γ)
    (msg : γ) (error : Option MoveItErrorCode) :
    (setPathConstraints γ st msg error).2.2 = true ∧
    (setPathConstraints γ st msg error).2.1 = error ∧
    (setPathConstraints γ st msg error).1.pathConstraints = some { added := [msg] } ∧
    (setPathConstraints γ st msg error).1.pathConstraintsMsg = some msg :=
  ⟨rfl, rfl, rfl, rfl⟩

/-! ## C9 — the `count` argument of `follow` is never read -/

/-- C9: for every fixed context state (environment, samplers, oracle) and
timeout, `follow(timeout, c1)` and `follow(timeout, c2)` run the same
algorithm and produce the same outcome, for any two counts `c1`, `c2`:
the `count` parameter is dead. -/
theorem follow_count_never_read {σ : Type} [Inhabited σ] (env : FollowEnv σ) (n : Nat)
    (o : FollowOracle σ) (timeout c1 c2 : Nat) :
    contextFollow env n o timeout c1 = contextFollow env n o timeout c2 := rfl

/-! ## C3 — the projection-expression grammar -/

/-- C3 (code bug): the code uses `find_first_of`, which matches ANY of the
characters `l`, `i`, `n`, `k`, `(` at position 0, not the exact prefix
`link(`.  The string `"kabcdmylink)"` has neither the exact prefix `link(`
nor `joints(`, yet `getProjectionEvaluator` builds a link-pose projection
onto `mylink` (and `setProjectionEvaluator` would install it), contradicting
the claim that only `link(...)`/`joints(...)` are recognized. -/
theorem projection_find_first_of_bug :
    getProjectionEvaluator envC3 "kabcdmylink)" = some (ProjEval.linkPose "mylink") ∧
    setProjectionEvaluator envC3 true "kabcdmylink)" = some (ProjEval.linkPose "mylink") ∧
    hasExactPrefix "kabcdmylink)" "link(" = false ∧
    hasExactPrefix "kabcdmylink)" "joints(" = false := by
  exact ⟨rfl, rfl, rfl, rfl⟩

/-! ## C6 — cancellation before a solution is found -/

/-- C6 (code bug): in the batched branch (`count > max_planning_threads_`),
`result` is initialised to `true` and batches are skipped once the
termination condition fires, so a `solve` cancelled before the first batch
check returns `true` — success with no batch ever run and no solution —
where the claim requires non-success. -/
theorem solve_cancelled_before_batches_returns_true :
    (solveModel 2 100 4 oracleC6).success = true ∧
    (solveModel 2 100 4 oracleC6).batchSizes = [] := by
  exact ⟨rfl, rfl⟩

/-! ## C2 — batched parallel solve -/

/-- C2 (counterexample): with `maxPlanningThreads = 2` and `count = 5`, the
claim predicts `⌊5/2⌋ = 2` full batches plus a partial batch of 1 and success
equal to the AND of those batches' results; but when the termination
condition fires before the first batch check, no batch at all runs and the
call returns `true` even though every engine result is `TIMEOUT`. -/
theorem solve_batch_schedule_counterexample :
    (solveModel 2 100 5 oracleC2x).batchSizes ≠
      List.replicate (5 / 2) 2 ++ [5 % 2] ∧
    (solveModel 2 100 5 oracleC2x).success = true := by
  exact ⟨by decide, rfl⟩

/-! ## C7 — pairing of register/unregister and `terminateSolve` -/

theorem solveModel_regTrace (maxThreads timeout count : Nat) (o : SolveOracle) :
    (solveModel maxThreads timeout count o).regTrace = [true, false] ∧
    (solveModel maxThreads timeout count o).ptcAfter = none := by
  simp only [solveModel]
  repeat' split
  all_goals exact ⟨rfl, rfl⟩

/-- C7: every `registerTerminationCondition` performed by `solve` or `follow`
is matched by an `unregisterTerminationCondition` on every exit path (the
trace is correctly bracketed with at most one condition registered at a
time), `ptc_` is null after return, and a subsequent `terminateSolve` is a
no-op. -/
theorem termination_condition_pairing {σ : Type} [Inhabited σ]
    (maxThreads timeout count : Nat) (o : SolveOracle)
    (env : FollowEnv σ) (n : Nat) (fo : FollowOracle σ) (ftimeout fcount : Nat) :
    regBalanced (solveModel maxThreads timeout count o).regTrace 0 = true ∧
    (solveModel maxThreads timeout count o).ptcAfter = none ∧
    regBalanced (contextFollow env n fo ftimeout fcount).1.regTrace 0 = true ∧
    (contextFollow env n fo ftimeout fcount).1.ptcAfter = none ∧
    terminateSolve none = (none, false) := by
  obtain ⟨h1, h2⟩ := solveModel_regTrace maxThreads timeout count o
  exact ⟨by rw [h1]; rfl, h2, rfl, rfl, rfl⟩

/-! ## C5 — sampler factory priority -/

/-- C5: for every sampler allocation with path constraints present, a
non-null sampler from the approximation library is returned as-is and the
constraint-sampler manager is never consulted; when the library path yields
nothing the manager is consulted (exactly when the handle is non-null) and a
non-null result is wrapped in a `ConstrainedSampler`; otherwise — manager
null or yielding null, or no path constraints — the space's default uniform
sampler is returned.  The hypothesis `hss` reflects that the state space
invokes the allocator installed at line 61 on itself. -/
theorem allocPathConstrainedSampler_priority (env : AllocEnv) (ss : Nat)
    (hss : env.stateSpace = ss) :
    (env.pathConstraintsPresent = true →
      (∀ r, librarySampler env ss = some r →
        allocPathConstrainedSampler env ss = (SamplerResult.precomputed r, false)) ∧
      (librarySampler env ss = none →
        (allocPathConstrainedSampler env ss).2 = env.samplerManager.isSome ∧
        (∀ cs, env.samplerManager = some (some cs) →
          (allocPathConstrainedSampler env ss).1 = SamplerResult.constrainedSampler cs) ∧
        ((env.samplerManager = none ∨ env.samplerManager = some none) →
          (allocPathConstrainedSampler env ss).1 = SamplerResult.defaultUniform))) ∧
    (env.pathConstraintsPresent = false →
      allocPathConstrainedSampler env ss = (SamplerResult.defaultUniform, false)) := by
  unfold allocPathConstrainedSampler
  rw [if_neg (by simp [hss])]
  constructor
  · intro hp
    rw [if_pos hp]
    refine ⟨fun r hr => by rw [hr], fun hn => ?_⟩
    rw [hn]
    rcases hsm : env.samplerManager with _ | mo
    · exact ⟨rfl, fun cs hcs => by simp at hcs, fun _ => rfl⟩
    · rcases mo with _ | cs
      · exact ⟨rfl, fun cs2 hcs2 => by simp at hcs2, fun _ => rfl⟩
      · refine ⟨rfl, fun cs2 hcs2 => ?_, fun hd => ?_⟩
        · have h4 : cs = cs2 := by
            injection hcs2 with h3
            injection h3
          subst h4
          rfl
        · rcases hd with hd | hd <;> simp at hd
  · intro hp
    rw [if_neg (by simp [hp])]

/-- Witness for C5 at a concrete environment: the library sampler `7` is
returned without consulting the manager. -/
theorem allocPathConstrainedSampler_priority_witness :
    allocPathConstrainedSampler envC5 5 = (SamplerResult.precomputed 7, false) :=
  ((allocPathConstrainedSampler_priority envC5 5 rfl).1 rfl).1 7 rfl

/-! ## C4 — `setGoalConstraints` with zero constructible samplers -/

/-- C4 (counterexample): one nonempty merged goal constraint set, the manager
yields no sampler for it (zero goal samplers constructible), the optional
error output is supplied with initial value `SUCCESS` — the call returns
`false` but leaves the error output at `SUCCESS` instead of writing
`INVALID_GOAL_CONSTRAINTS`, contrary to the claim. -/
theorem setGoalConstraints_error_not_filled :
    (setGoalConstraints Nat envC4 [1] 0 (some MoveItErrorCode.SUCCESS)).returned = false ∧
    (setGoalConstraints Nat envC4 [1] 0 (some MoveItErrorCode.SUCCESS)).errorOut =
      some MoveItErrorCode.SUCCESS :=
  ⟨rfl, rfl⟩

/-- C4 (amended): when zero goal samplers can be constructed,
`setGoalConstraints` returns `false` and installs no goal; the error output
is written (with `INVALID_GOAL_CONSTRAINTS`) only in the case where the list
of nonempty merged goal constraint sets is itself empty — when nonempty
constraint sets simply yield no sampler, the error output is left
untouched. -/
theorem setGoalConstraints_zero_samplers (γ : Type) (env : GoalEnv γ) (gcs : List γ)
    (pc : γ) (err : Option MoveItErrorCode)
    (hzero : ∀ sel, env.samplerManager = some sel → ∀ c, sel c = none) :
    (setGoalConstraints γ env gcs pc err).returned = false ∧
    (setGoalConstraints γ env gcs pc err).goalSet = none ∧
    (setGoalConstraints γ env gcs pc err).errorOut =
      (if (mergedGoalSets γ env gcs pc).isEmpty then
        err.map fun _ => MoveItErrorCode.INVALID_GOAL_CONSTRAINTS
      else err) := by
  have hsamp : ∀ l : List γ, goalSamplersOf γ env l = [] := by
    intro l
    apply List.filterMap_eq_nil_iff.mpr
    intro c _
    rcases hsm : env.samplerManager with _ | sel
    · rfl
    · simp [hzero sel hsm c]
  have hcg : ∀ l : List γ, constructGoal γ env l = none := by
    intro l
    unfold constructGoal
    rw [hsamp l]
  rcases hst : mergedGoalSets γ env gcs pc with _ | ⟨c, cs⟩
  · simp only [setGoalConstraints, hst, List.isEmpty_nil, if_true]
    exact ⟨by trivial, by trivial, by trivial⟩
  · simp only [setGoalConstraints, hst, List.isEmpty_cons, Bool.false_eq_true, if_false, hcg]
    exact ⟨by trivial, by trivial, by trivial⟩

/-- Witness for C4 at the counterexample environment. -/
theorem setGoalConstraints_zero_samplers_witness :
    (setGoalConstraints Nat envC4 [1] 0 (some MoveItErrorCode.SUCCESS)).returned = false ∧
    (setGoalConstraints Nat envC4 [1] 0 (some MoveItErrorCode.SUCCESS)).goalSet = none ∧
    (setGoalConstraints Nat envC4 [1] 0 (some MoveItErrorCode.SUCCESS)).errorOut =
      (if (mergedGoalSets Nat envC4 [1] 0).isEmpty then
        (some MoveItErrorCode.SUCCESS).map fun _ => MoveItErrorCode.INVALID_GOAL_CONSTRAINTS
      else some MoveItErrorCode.SUCCESS) :=
  setGoalConstraints_zero_samplers Nat envC4 [1] 0 (some MoveItErrorCode.SUCCESS)
    (by intro sel hs c; injection hs with h2; rw [← h2])

/-! ## C8 — `interpolateSolution` -/

/-- C8: assuming the OMPL contract for `PathGeometric::interpolate` (the
result has at least the requested number of states), after
`interpolateSolution` the stored path has at least
`max(⌊0.5 + length/maxSegment⌋, minimumWaypointCount)` waypoints; when no
solution path exists, nothing changes. -/
theorem interpolateSolution_waypoint_bound (sol : Option PathGeo) (maxSeg : ℚ)
    (minW : Nat) (interp : PathGeo → Nat → PathGeo)
    (hinterp : ∀ p c, c ≤ (interp p c).stateCount) :
    (∀ pg, sol = some pg →
      ∃ pg2, interpolateSolution sol maxSeg minW interp = some pg2 ∧
        max (Int.toNat ⌊1 / 2 + pg.length / maxSeg⌋) minW ≤ pg2.stateCount) ∧
    (sol = none → interpolateSolution sol maxSeg minW interp = none) := by
  constructor
  · intro pg h
    subst h
    exact ⟨_, rfl, hinterp pg _⟩
  · intro h
    subst h
    rfl

/-- Witness for C8: a 2-state path of length 5 with segment bound 2 and
minimum 3 waypoints. -/
theorem interpolateSolution_waypoint_bound_witness :
    ∃ pg2, interpolateSolution (some { stateCount := 2, length := 5 }) 2 3 interpW =
        some pg2 ∧
      max (Int.toNat ⌊1 / 2 + (5 : ℚ) / 2⌋) 3 ≤ pg2.stateCount :=
  (interpolateSolution_waypoint_bound (some { stateCount := 2, length := 5 }) 2 3 interpW
      fun p c => Nat.le_max_left c p.stateCount).1
    { stateCount := 2, length := 5 } rfl

/-! ## C2 — batched schedule in the absence of termination -/

theorem headD_drop {α : Type _} (l : List α) (n : Nat) (d : α) :
    (l.drop n).headD d = l.getD n d := by
  induction l generalizing n with
  | nil => simp
  | cons a t ih =>
    cases n with
    | zero => rfl
    | succ k => exact ih k

theorem take_succ_all {α : Type _} (l : List α) (n : Nat) (f : α → Bool) (d : α)
    (h : n < l.length) :
    (l.take (n + 1)).all f = ((l.take n).all f && f (l.getD n d)) := by
  induction l generalizing n with
  | nil => simp at h
  | cons a t ih =>
    cases n with
    | zero => simp
    | succ k =>
      have := ih k (by simpa using h)
      simp only [List.take_succ_cons, List.all_cons, this, List.getD_cons_succ]
      rw [Bool.and_assoc]

theorem batchLoop_no_fire (deadline batchSize : Nat) :
    ∀ m t res acc sizes, t + m ≤ deadline → m ≤ res.length →
      batchLoop deadline batchSize m t res acc sizes =
        (acc && (res.take m).all (fun r => r == PlannerStatus.EXACT_SOLUTION),
         sizes ++ List.replicate m batchSize, t + m, res.drop m) := by
  intro m
  induction m with
  | zero =>
    intro t res acc sizes h hr
    simp [batchLoop]
  | succ k ih =>
    intro t res acc sizes h hr
    cases res with
    | nil => simp at hr
    | cons r res2 =>
      have hnf : ptcFired deadline t = false := by
        simp only [ptcFired, decide_eq_false_iff_not]
        omega
      rw [batchLoop, hnf]
      simp only [Bool.false_eq_true, if_false, List.headD_cons, List.tail_cons]
      rw [ih (t + 1) res2 (acc && (r == PlannerStatus.EXACT_SOLUTION))
        (sizes ++ [batchSize]) (by omega) (by simpa using hr)]
      simp only [List.take_succ_cons, List.all_cons, List.drop_succ_cons,
        List.append_assoc, List.singleton_append, List.replicate_succ,
        Bool.and_assoc, Prod.mk.injEq]
      exact ⟨by trivial, by trivial, by omega, by trivial⟩

/-- C2 (amended): with `count > maxPlanningThreads` and the termination
condition not firing before any batch check, `solve` runs
`⌊count/maxThreads⌋` full batches of size `maxThreads` plus one final partial
batch of size `count mod maxThreads` when that is nonzero, and the returned
success is the AND over the executed batches' results (each batch succeeding
iff its parallel plan returns `EXACT_SOLUTION`).  Once the termination
condition fires, remaining batches are skipped and count as vacuously
successful (see the counterexample). -/
theorem solve_batched_schedule (maxThreads timeout count : Nat) (o : SolveOracle)
    (hm : 0 < maxThreads) (hc : maxThreads < count)
    (hdl : count / maxThreads < o.ptcDeadline)
    (hres : count / maxThreads + (if count % maxThreads = 0 then 0 else 1) ≤
      o.engineResults.length) :
    (solveModel maxThreads timeout count o).batchSizes =
      List.replicate (count / maxThreads) maxThreads ++
        (if count % maxThreads = 0 then [] else [count % maxThreads]) ∧
    (solveModel maxThreads timeout count o).success =
      ((o.engineResults.take
          (count / maxThreads + (if count % maxThreads = 0 then 0 else 1))).all
        fun r => r == PlannerStatus.EXACT_SOLUTION) := by
  have h1 : ¬(count ≤ 1) := by omega
  have h2 : ¬(count ≤ maxThreads) := by omega
  have hlen : count / maxThreads ≤ o.engineResults.length := by
    by_cases hrem : count % maxThreads = 0 <;> simp [hrem] at hres <;> omega
  have hloop := batchLoop_no_fire o.ptcDeadline maxThreads (count / maxThreads) 0
    o.engineResults true [] (by omega) hlen
  simp only [solveModel, if_neg h1, if_neg h2]
  simp only [hloop, Nat.zero_add, List.nil_append, Bool.true_and]
  by_cases hrem : count % maxThreads = 0
  · rw [if_neg (by simpa using hrem)]
    simp [hrem]
  · have hlt : count / maxThreads < o.engineResults.length := by
      simp [hrem] at hres
      omega
    rw [if_pos (show count % maxThreads ≠ 0 from hrem)]
    have hnf : ptcFired o.ptcDeadline (count / maxThreads) = false := by
      simp only [ptcFired, decide_eq_false_iff_not]
      omega
    simp only [hnf, Bool.false_eq_true, if_false]
    refine ⟨by simp [hrem], ?_⟩
    rw [headD_drop o.engineResults (count / maxThreads) PlannerStatus.TIMEOUT]
    have h5 : count / maxThreads + (if count % maxThreads = 0 then 0 else 1) =
        count / maxThreads + 1 := by
      simp [hrem]
    rw [h5, take_succ_all o.engineResults (count / maxThreads) _ PlannerStatus.TIMEOUT hlt]

/-- Witness for C2 (amended) at `maxThreads = 2`, `count = 5`, no
termination: batches `(2, 2, 1)` all run. -/
theorem solve_batched_schedule_witness :
    (solveModel 2 100 5 oracleC2w).batchSizes =
      List.replicate (5 / 2) 2 ++ (if 5 % 2 = 0 then [] else [5 % 2]) ∧
    (solveModel 2 100 5 oracleC2w).success =
      ((oracleC2w.engineResults.take (5 / 2 + (if 5 % 2 = 0 then 0 else 1))).all
        fun r => r == PlannerStatus.EXACT_SOLUTION) :=
  solve_batched_schedule 2 100 5 oracleC2w (by decide) (by decide) (by decide) (by decide)

/-! ## C1 — the Follower.  Stage A: connection-structure bookkeeping. -/

theorem getD_replicate_self {α : Type _} (m j : Nat) (d : α) :
    (List.replicate m d).getD j d = d := by
  by_cases h : j < m
  · rw [List.getD_eq_getElem _ _ (by simpa using h)]
    exact List.getElem_replicate ..
  · exact List.getD_eq_default _ _ (by simpa using h)

theorem mem_cAt_lt_length (conns : List (List (List Nat))) (i j k : Nat)
    (h : k ∈ cAt conns i j) : i < conns.length := by
  by_contra hc
  push_neg at hc
  unfold cAt at h
  rw [List.getD_eq_default _ _ hc] at h
  simp at h

theorem cAt_connPush_mem (conns : List (List (List Nat))) (a b k i j k2 : Nat)
    (h : k2 ∈ cAt (connPush conns a b k) i j) :
    k2 ∈ cAt conns i j ∨ (i = a ∧ j = b ∧ k2 = k) := by
  unfold connPush cAt at h
  by_cases hia : i = a
  · subst hia
    by_cases hlen : i < conns.length
    · rw [getD_set_self _ _ _ _ hlen] at h
      by_cases hjb : j = b
      · subst hjb
        by_cases hjlen : j < (conns.getD i []).length
        · rw [getD_set_self _ _ _ _ hjlen] at h
          rcases List.mem_append.mp h with h | h
          · exact Or.inl h
          · simp at h
            exact Or.inr ⟨rfl, rfl, h⟩
        · rw [set_of_length_le _ _ _ (Nat.le_of_not_lt hjlen)] at h
          exact Or.inl h
      · rw [getD_set_ne _ _ _ _ _ fun hh => hjb hh.symm] at h
        exact Or.inl h
    · rw [set_of_length_le _ _ _ (Nat.le_of_not_lt hlen)] at h
      exact Or.inl h
  · rw [getD_set_ne _ _ _ _ _ fun hh => hia hh.symm] at h
    exact Or.inl h

theorem cAt_connPush_super (conns : List (List (List Nat))) (a b k i j : Nat) :
    ∀ k2, k2 ∈ cAt conns i j → k2 ∈ cAt (connPush conns a b k) i j := by
  intro k2 h
  unfold connPush cAt
  unfold cAt at h
  by_cases hia : i = a
  · subst hia
    by_cases hlen : i < conns.length
    · rw [getD_set_self _ _ _ _ hlen]
      by_cases hjb : j = b
      · subst hjb
        by_cases hjlen : j < (conns.getD i []).length
        · rw [getD_set_self _ _ _ _ hjlen]
          exact List.mem_append.mpr (Or.inl h)
        · rw [set_of_length_le _ _ _ (Nat.le_of_not_lt hjlen)]
          exact h
      · rw [getD_set_ne _ _ _ _ _ fun hh => hjb hh.symm]
        exact h
    · rw [set_of_length_le _ _ _ (Nat.le_of_not_lt hlen)]
      exact h
  · rw [getD_set_ne _ _ _ _ _ fun hh => hia hh.symm]
    exact h

theorem connPush_mem_new (conns : List (List (List Nat))) (a b k : Nat)
    (ha : a < conns.length) (hb : b < (conns.getD a []).length) :
    k ∈ cAt (connPush conns a b k) a b := by
  unfold connPush cAt
  rw [getD_set_self _ _ _ _ ha, getD_set_self _ _ _ _ hb]
  exact List.mem_append.mpr (Or.inr (List.mem_singleton.mpr rfl))

theorem connPush_length (conns : List (List (List Nat))) (a b k : Nat) :
    (connPush conns a b k).length = conns.length :=
  List.length_set ..

theorem connPush_rowLen (conns : List (List (List Nat))) (a b k i : Nat) :
    ((connPush conns a b k).getD i []).length = (conns.getD i []).length := by
  unfold connPush
  by_cases hia : i = a
  · subst hia
    by_cases h : i < conns.length
    · rw [getD_set_self _ _ _ _ h]
      exact List.length_set ..
    · rw [set_of_length_le _ _ _ (Nat.le_of_not_lt h)]
  · rw [getD_set_ne _ _ _ _ _ fun hh => hia hh.symm]

theorem cAt_rowAppend_mem (conns : List (List (List Nat))) (L i j k : Nat)
    (h : k ∈ cAt (conns.set L (conns.getD L [] ++ [[]])) i j) : k ∈ cAt conns i j := by
  unfold cAt at h ⊢
  by_cases hiL : i = L
  · subst hiL
    by_cases hlen : i < conns.length
    · rw [getD_set_self _ _ _ _ hlen] at h
      by_cases hj : j < (conns.getD i []).length
      · rwa [List.getD_append _ _ _ _ hj] at h
      · rw [List.getD_append_right _ _ _ _ (Nat.le_of_not_lt hj)] at h
        have : (([[]] : List (List Nat)).getD (j - (conns.getD i []).length) []) = [] := by
          rcases j - (conns.getD i []).length with _ | m
          · rfl
          · rfl
        rw [this] at h
        simp at h
    · rwa [set_of_length_le _ _ _ (Nat.le_of_not_lt hlen)] at h
  · rwa [getD_set_ne _ _ _ _ _ fun hh => hiL hh.symm] at h

theorem cAt_rowAppend_super (conns : List (List (List Nat))) (L i j : Nat) :
    ∀ k, k ∈ cAt conns i j → k ∈ cAt (conns.set L (conns.getD L [] ++ [[]])) i j := by
  intro k h
  unfold cAt at h ⊢
  by_cases hiL : i = L
  · subst hiL
    by_cases hlen : i < conns.length
    · rw [getD_set_self _ _ _ _ hlen]
      by_cases hj : j < (conns.getD i []).length
      · rwa [List.getD_append _ _ _ _ hj]
      · rw [List.getD_eq_default _ _ (Nat.le_of_not_lt hj)] at h
        simp at h
    · rwa [set_of_length_le _ _ _ (Nat.le_of_not_lt hlen)]
  · rwa [getD_set_ne _ _ _ _ _ fun hh => hiL hh.symm]

theorem connLE_connPush (conns : List (List (List Nat))) (a b k : Nat) :
    connLE conns (connPush conns a b k) :=
  fun i j k2 h => cAt_connPush_super conns a b k i j k2 h

theorem connLE_rowAppend (conns : List (List (List Nat))) (L : Nat) :
    connLE conns (conns.set L (conns.getD L [] ++ [[]])) :=
  fun i j k h => cAt_rowAppend_super conns L i j k h

theorem chainR_mono {c1 c2 : List (List (List Nat))} (h : connLE c1 c2) {i j a b : Nat}
    (hc : ChainR c1 i j a b) : ChainR c2 i j a b := by
  induction hc with
  | refl => exact ChainR.refl _ _
  | snoc hprev hk ih => exact ChainR.snoc ih (h _ _ _ hk)

theorem ChainR.toReachGoal {conns : List (List (List Nat))} {i j a b : Nat}
    (hc : ChainR conns i j a b) : ReachGoal conns a b → ReachGoal conns i j := by
  induction hc with
  | refl => exact fun h => h
  | snoc hprev hk ih => exact fun hr => ih (ReachGoal.step hk hr)

theorem startReach_mono {len0 : Nat} {c1 c2 : List (List (List Nat))} (h : connLE c1 c2)
    {i j : Nat} (hs : StartReach len0 c1 i j) : StartReach len0 c2 i j :=
  hs.imp fun _ hp => ⟨hp.1, chainR_mono h hp.2⟩

theorem reachInv_mono {len0 : Nat} {c1 c2 : List (List (List Nat))}
    {isStart : List (List Bool)} (hle : connLE c1 c2) (h : ReachInv len0 c1 isStart) :
    ReachInv len0 c2 isStart :=
  fun i j hb => startReach_mono hle (h i j hb)

theorem bAt_bSet (m : List (List Bool)) (i j a b : Nat)
    (h : bAt (bSet m i j) a b = true) : (a = i ∧ b = j) ∨ bAt m a b = true := by
  unfold bAt bSet at h
  by_cases hai : a = i
  · subst hai
    by_cases hlen : a < m.length
    · rw [getD_set_self _ _ _ _ hlen] at h
      by_cases hbj : b = j
      · exact Or.inl ⟨rfl, hbj⟩
      · rw [getD_set_ne _ _ _ _ _ fun hh => hbj hh.symm] at h
        exact Or.inr h
    · rw [set_of_length_le _ _ _ (Nat.le_of_not_lt hlen)] at h
      exact Or.inr h
  · rw [getD_set_ne _ _ _ _ _ fun hh => hai hh.symm] at h
    exact Or.inr h

theorem bAt_rowAppend (m : List (List Bool)) (L a b : Nat)
    (h : bAt (m.set L (m.getD L [] ++ [false])) a b = true) : bAt m a b = true := by
  unfold bAt at h ⊢
  by_cases haL : a = L
  · subst haL
    by_cases hlen : a < m.length
    · rw [getD_set_self _ _ _ _ hlen] at h
      by_cases hb : b < (m.getD a []).length
      · rwa [List.getD_append _ _ _ _ hb] at h
      · rw [List.getD_append_right _ _ _ _ (Nat.le_of_not_lt hb)] at h
        have hf : (([false] : List Bool).getD (b - (m.getD a []).length) false) = false := by
          rcases b - (m.getD a []).length with _ | x
          · rfl
          · rfl
        rw [hf] at h
        exact absurd h (by simp)
    · rwa [set_of_length_le _ _ _ (Nat.le_of_not_lt hlen)] at h
  · rwa [getD_set_ne _ _ _ _ _ fun hh => haL hh.symm] at h

theorem any_to_bAt (m : List (List Bool)) (L : Nat)
    (h : ((m.getD L []).any fun b => b) = true) : ∃ g, bAt m L g = true := by
  rcases List.any_eq_true.mp h with ⟨b, hb, hbt⟩
  rcases List.mem_iff_getElem.mp hb with ⟨g, hg, hgb⟩
  refine ⟨g, ?_⟩
  unfold bAt
  rw [List.getD_eq_getElem _ _ hg, hgb]
  exact hbt

theorem propagate_reachInv (len0 : Nat) (conns : List (List (List Nat))) :
    ∀ fuel i j isStart, ReachInv len0 conns isStart → StartReach len0 conns i j →
      ReachInv len0 conns (propagateStartInfo conns fuel i j isStart) := by
  intro fuel
  induction fuel with
  | zero => exact fun i j isStart h _ => h
  | succ f ih =>
    intro i j isStart h hr
    unfold propagateStartInfo
    by_cases hlen : conns.length ≤ i
    · rw [if_pos hlen]
      exact h
    · rw [if_neg hlen]
      refine foldl_preserves (ReachInv len0 conns) _ _ ?_ isStart h
      intro m k hk hm
      have hrk : StartReach len0 conns (i + 1) k :=
        hr.imp fun s hs => ⟨hs.1, ChainR.snoc hs.2 hk⟩
      refine ih (i + 1) k _ ?_ hrk
      intro a b hb
      rcases bAt_bSet _ _ _ _ _ hb with ⟨ha, hb2⟩ | hb2
      · subst ha
        subst hb2
        exact hrk
      · exact hm a b hb2

/-! Stage B: invariant preservation through the `if (added)` connection work. -/

theorem edgeOK_connPush {σ : Type} [Inhabited σ] {cm : σ → σ → Bool}
    {sets : List (List σ)} {conns : List (List (List Nat))}
    (h : edgeOK cm sets conns) (a b k : Nat)
    (hb : b < (sets.getD a []).length) (hk : k < (sets.getD (a + 1) []).length)
    (hcm : cm (setsAt sets a b) (setsAt sets (a + 1) k) = true) :
    edgeOK cm sets (connPush conns a b k) := by
  intro i j k2 h2
  rcases cAt_connPush_mem conns a b k i j k2 h2 with h3 | ⟨hi, hj, hk2⟩
  · exact h i j k2 h3
  · subst hi
    subst hj
    subst hk2
    exact ⟨hb, hk, hcm⟩

theorem edgeOK_rowAppend {σ : Type} [Inhabited σ] {cm : σ → σ → Bool}
    {sets : List (List σ)} {conns : List (List (List Nat))} (L : Nat)
    (h : edgeOK cm sets conns) :
    edgeOK cm sets (conns.set L (conns.getD L [] ++ [[]])) :=
  fun i j k h2 => h i j k (cAt_rowAppend_mem conns L i j k h2)

theorem pushLayer_getD_length {σ : Type} (sets : List (List σ)) (L : Nat) (x : σ)
    (i : Nat) :
    (sets.getD i []).length ≤ ((sets.set L (sets.getD L [] ++ [x])).getD i []).length := by
  by_cases hiL : i = L
  · subst hiL
    by_cases hlen : i < sets.length
    · rw [getD_set_self _ _ _ _ hlen]
      simp
    · rw [set_of_length_le _ _ _ (Nat.le_of_not_lt hlen)]
  · rw [getD_set_ne _ _ _ _ _ fun hh => hiL hh.symm]

theorem pushLayer_setsAt {σ : Type} [Inhabited σ] (sets : List (List σ)) (L : Nat)
    (x : σ) (i j : Nat) (h : j < (sets.getD i []).length) :
    setsAt (sets.set L (sets.getD L [] ++ [x])) i j = setsAt sets i j := by
  unfold setsAt
  by_cases hiL : i = L
  · subst hiL
    by_cases hlen : i < sets.length
    · rw [getD_set_self _ _ _ _ hlen, List.getD_append _ _ _ _ h]
    · rw [set_of_length_le _ _ _ (Nat.le_of_not_lt hlen)]
  · rw [getD_set_ne _ _ _ _ _ fun hh => hiL hh.symm]

theorem edgeOK_pushLayer {σ : Type} [Inhabited σ] {cm : σ → σ → Bool}
    {sets : List (List σ)} {conns : List (List (List Nat))} (L : Nat) (x : σ)
    (h : edgeOK cm sets conns) :
    edgeOK cm (sets.set L (sets.getD L [] ++ [x])) conns := by
  intro i j k hk
  obtain ⟨h1, h2, h3⟩ := h i j k hk
  refine ⟨Nat.lt_of_lt_of_le h1 (pushLayer_getD_length sets L x i),
    Nat.lt_of_lt_of_le h2 (pushLayer_getD_length sets L x (i + 1)), ?_⟩
  rw [pushLayer_setsAt _ _ _ _ _ h1, pushLayer_setsAt _ _ _ _ _ h2]
  exact h3

theorem connectPrev_preserves {σ : Type} [Inhabited σ] (env : FollowEnv σ) (len0 : Nat)
    (sets : List (List σ)) (conns0 : List (List (List Nat))) (index addedElem : Nat)
    (hconn : index - 1 < conns0.length)
    (h13 : index - 1 + 1 = index)
    (hadded : addedElem < (sets.getD index []).length)
    (hrow : ∀ i2, i2 < conns0.length →
      (conns0.getD i2 []).length = (sets.getD i2 []).length)
    (acc : List (List (List Nat)) × List (List Bool)) (i : Nat)
    (hi : i < (sets.getD (index - 1) []).length)
    (hE : edgeOK env.checkMotion sets acc.1) (hR : ReachInv len0 acc.1 acc.2)
    (hL : acc.1.length = conns0.length)
    (hRL : ∀ i2, (acc.1.getD i2 []).length = (conns0.getD i2 []).length) :
    edgeOK env.checkMotion sets (connectPrev env sets index addedElem acc i).1 ∧
    ReachInv len0 (connectPrev env sets index addedElem acc i).1
      (connectPrev env sets index addedElem acc i).2 ∧
    (connectPrev env sets index addedElem acc i).1.length = conns0.length ∧
    ∀ i2, ((connectPrev env sets index addedElem acc i).1.getD i2 []).length =
      (conns0.getD i2 []).length := by
  unfold connectPrev
  by_cases hcm : env.checkMotion (setsAt sets (index - 1) i) (setsAt sets index addedElem) = true
  · rw [if_pos hcm]
    have hE2 : edgeOK env.checkMotion sets (connPush acc.1 (index - 1) i addedElem) := by
      refine edgeOK_connPush hE (index - 1) i addedElem hi ?_ ?_
      · rw [h13]
        exact hadded
      · rw [h13]
        exact hcm
    have hle : connLE acc.1 (connPush acc.1 (index - 1) i addedElem) :=
      connLE_connPush acc.1 (index - 1) i addedElem
    have hL2 : (connPush acc.1 (index - 1) i addedElem).length = conns0.length := by
      rw [connPush_length]
      exact hL
    have hRL2 : ∀ i2, ((connPush acc.1 (index - 1) i addedElem).getD i2 []).length =
        (conns0.getD i2 []).length := by
      intro i2
      rw [connPush_rowLen]
      exact hRL i2
    by_cases hb : bAt acc.2 (index - 1) i = true
    · rw [if_pos hb]
      refine ⟨hE2, ?_, hL2, hRL2⟩
      have hmem : addedElem ∈ cAt (connPush acc.1 (index - 1) i addedElem) (index - 1) i := by
        refine connPush_mem_new acc.1 (index - 1) i addedElem ?_ ?_
        · rw [hL]
          exact hconn
        · rw [hRL (index - 1), hrow (index - 1) hconn]
          exact hi
      have hreach2 : StartReach len0 (connPush acc.1 (index - 1) i addedElem) index addedElem := by
        obtain ⟨s, hs1, hs2⟩ := startReach_mono hle (hR _ _ hb)
        have hch : ChainR (connPush acc.1 (index - 1) i addedElem) 0 s (index - 1 + 1) addedElem :=
          ChainR.snoc hs2 hmem
        rw [h13] at hch
        exact ⟨s, hs1, hch⟩
      refine propagate_reachInv len0 _ _ index addedElem _ ?_ hreach2
      intro a2 b2 hb2
      rcases bAt_bSet _ _ _ _ _ hb2 with ⟨ha2, hbb⟩ | hbb
      · subst ha2
        subst hbb
        exact hreach2
      · exact startReach_mono hle (hR a2 b2 hbb)
    · rw [if_neg hb]
      exact ⟨hE2, reachInv_mono hle hR, hL2, hRL2⟩
  · rw [if_neg hcm]
    exact ⟨hE, hR, hL, hRL⟩

theorem connectNext_preserves {σ : Type} [Inhabited σ] (env : FollowEnv σ) (len0 : Nat)
    (sets : List (List σ)) (conns0 : List (List (List Nat))) (index addedElem : Nat)
    (hconn : index < conns0.length)
    (hadded : addedElem < (sets.getD index []).length)
    (hrow : ∀ i2, i2 < conns0.length →
      (conns0.getD i2 []).length = (sets.getD i2 []).length)
    (acc : List (List (List Nat)) × List (List Bool)) (i : Nat)
    (hi : i < (sets.getD (index + 1) []).length)
    (hE : edgeOK env.checkMotion sets acc.1) (hR : ReachInv len0 acc.1 acc.2)
    (hL : acc.1.length = conns0.length)
    (hRL : ∀ i2, (acc.1.getD i2 []).length = (conns0.getD i2 []).length) :
    edgeOK env.checkMotion sets (connectNext env sets index addedElem acc i).1 ∧
    ReachInv len0 (connectNext env sets index addedElem acc i).1
      (connectNext env sets index addedElem acc i).2 ∧
    (connectNext env sets index addedElem acc i).1.length = conns0.length ∧
    ∀ i2, ((connectNext env sets index addedElem acc i).1.getD i2 []).length =
      (conns0.getD i2 []).length := by
  unfold connectNext
  by_cases hcm : env.checkMotion (setsAt sets index addedElem) (setsAt sets (index + 1) i) = true
  · rw [if_pos hcm]
    have hE2 : edgeOK env.checkMotion sets (connPush acc.1 index addedElem i) :=
      edgeOK_connPush hE index addedElem i hadded hi hcm
    have hle : connLE acc.1 (connPush acc.1 index addedElem i) :=
      connLE_connPush acc.1 index addedElem i
    have hL2 : (connPush acc.1 index addedElem i).length = conns0.length := by
      rw [connPush_length]
      exact hL
    have hRL2 : ∀ i2, ((connPush acc.1 index addedElem i).getD i2 []).length =
        (conns0.getD i2 []).length := by
      intro i2
      rw [connPush_rowLen]
      exact hRL i2
    by_cases hb : (bAt acc.2 index addedElem && !bAt acc.2 (index + 1) i) = true
    · rw [if_pos hb]
      refine ⟨hE2, ?_, hL2, hRL2⟩
      have hb1 : bAt acc.2 index addedElem = true := by
        have h2 := hb
        simp only [Bool.and_eq_true] at h2
        exact h2.1
      have hmem : i ∈ cAt (connPush acc.1 index addedElem i) index addedElem := by
        refine connPush_mem_new acc.1 index addedElem i ?_ ?_
        · rw [hL]
          exact hconn
        · rw [hRL index, hrow index hconn]
          exact hadded
      have hreach2 : StartReach len0 (connPush acc.1 index addedElem i) (index + 1) i := by
        have hsr := startReach_mono hle (hR _ _ hb1)
        exact hsr.imp fun s hs => ⟨hs.1, ChainR.snoc hs.2 hmem⟩
      refine propagate_reachInv len0 _ _ (index + 1) i _ ?_ hreach2
      intro a2 b2 hb2
      rcases bAt_bSet _ _ _ _ _ hb2 with ⟨ha2, hbb⟩ | hbb
      · subst ha2
        subst hbb
        exact hreach2
      · exact startReach_mono hle (hR a2 b2 hbb)
    · rw [if_neg hb]
      exact ⟨hE2, reachInv_mono hle hR, hL2, hRL2⟩
  · rw [if_neg hcm]
    exact ⟨hE, hR, hL, hRL⟩

theorem afterAdd_inv {σ : Type} [Inhabited σ] (env : FollowEnv σ) (len0 n : Nat)
    (st : P4State σ) (index : Nat)
    (hslen : st.sets.length = n + 2) (hclen : st.conns.length = n + 1)
    (hrow : ∀ i, i < st.conns.length →
      (st.conns.getD i []).length = (st.sets.getD i []).length)
    (hedge : edgeOK env.checkMotion st.sets st.conns)
    (hreach : ReachInv len0 st.conns st.isStart)
    (hidx1 : 1 ≤ index) (hidx2 : index ≤ n + 1)
    (hne : 0 < (st.sets.getD index []).length) :
    (afterAdd env st index).1.sets = st.sets ∧
    (afterAdd env st index).1.conns.length = st.conns.length ∧
    (∀ i, ((afterAdd env st index).1.conns.getD i []).length =
      (st.conns.getD i []).length) ∧
    (afterAdd env st index).1.pdfChoices = st.pdfChoices ∧
    edgeOK env.checkMotion st.sets (afterAdd env st index).1.conns ∧
    ReachInv len0 (afterAdd env st index).1.conns (afterAdd env st index).1.isStart ∧
    ((afterAdd env st index).2 = true →
      ∃ g, bAt (afterAdd env st index).1.isStart (n + 1) g = true) := by
  have h13 : index - 1 + 1 = index := by omega
  have hconn1 : index - 1 < st.conns.length := by omega
  have hadded : (st.sets.getD index []).length - 1 < (st.sets.getD index []).length :=
    Nat.sub_lt hne Nat.one_pos
  have hstep1 := foldl_preserves
    (fun acc : List (List (List Nat)) × List (List Bool) =>
      edgeOK env.checkMotion st.sets acc.1 ∧ ReachInv len0 acc.1 acc.2 ∧
      acc.1.length = st.conns.length ∧
      ∀ i2, (acc.1.getD i2 []).length = (st.conns.getD i2 []).length)
    (connectPrev env st.sets index ((st.sets.getD index []).length - 1))
    (List.range (st.sets.getD (index - 1) []).length)
    (fun acc i hi hacc =>
      connectPrev_preserves env len0 st.sets st.conns index _ hconn1 h13 hadded hrow acc i
        (List.mem_range.mp hi) hacc.1 hacc.2.1 hacc.2.2.1 hacc.2.2.2)
    (st.conns, st.isStart) ⟨hedge, hreach, rfl, fun _ => rfl⟩
  unfold afterAdd
  by_cases hlt : index < st.sets.length - 1
  · rw [if_pos hlt]
    have hconn2 : index < st.conns.length := by omega
    have hstep2 := foldl_preserves
      (fun acc : List (List (List Nat)) × List (List Bool) =>
        edgeOK env.checkMotion st.sets acc.1 ∧ ReachInv len0 acc.1 acc.2 ∧
        acc.1.length = st.conns.length ∧
        ∀ i2, (acc.1.getD i2 []).length = (st.conns.getD i2 []).length)
      (connectNext env st.sets index ((st.sets.getD index []).length - 1))
      (List.range (st.sets.getD (index + 1) []).length)
      (fun acc i hi hacc =>
        connectNext_preserves env len0 st.sets st.conns index _ hconn2 hadded hrow acc i
          (List.mem_range.mp hi) hacc.1 hacc.2.1 hacc.2.2.1 hacc.2.2.2)
      _ hstep1
    refine ⟨rfl, hstep2.2.2.1, hstep2.2.2.2, rfl, hstep2.1, hstep2.2.1, ?_⟩
    intro hsolved
    have h9 := any_to_bAt _ _ hsolved
    rw [hslen] at h9
    exact h9
  · rw [if_neg hlt]
    refine ⟨rfl, hstep1.2.2.1, hstep1.2.2.2, rfl, hstep1.1, hstep1.2.1, ?_⟩
    intro hsolved
    have h9 := any_to_bAt _ _ hsolved
    rw [hslen] at h9
    exact h9

/-! Stage C: invariant preservation through one phase-4 iteration. -/

theorem mem_of_tail {α : Type _} (l : List α) (c : α) (h : c ∈ l.tail) : c ∈ l := by
  cases l with
  | nil => simp at h
  | cons a t => exact List.mem_cons_of_mem _ h

theorem p4_after_push_inv {σ : Type} [Inhabited σ] (env : FollowEnv σ) (len0 n : Nat)
    (st st2 : P4State σ) (pidx aidx : Nat) (x : σ)
    (hinv : P4Inv env.checkMotion len0 n st)
    (hpidx1 : 1 ≤ pidx) (hpidx2 : pidx ≤ n + 1)
    (haidx1 : 1 ≤ aidx) (haidx2 : aidx ≤ n + 1)
    (hsets : st2.sets = st.sets.set pidx (st.sets.getD pidx [] ++ [x]))
    (hconns : (pidx = n + 1 ∧ st2.conns = st.conns) ∨
      (pidx ≤ n ∧ st2.conns = st.conns.set pidx (st.conns.getD pidx [] ++ [[]])))
    (hisStart : st2.isStart = st.isStart.set pidx (st.isStart.getD pidx [] ++ [false]))
    (hpdf2 : st2.pdfChoices = st.pdfChoices.tail) :
    P4Inv env.checkMotion len0 n (afterAdd env st2 aidx).1 ∧
    ((afterAdd env st2 aidx).2 = true →
      ∃ g2, bAt (afterAdd env st2 aidx).1.isStart (n + 1) g2 = true) := by
  obtain ⟨hslen, hclen, hlen0, hrow, hedge, hreach, hpdf, hnon⟩ := hinv
  have hidxlen : pidx < st.sets.length := by omega
  have hslen2 : st2.sets.length = n + 2 := by
    rw [hsets, List.length_set]
    exact hslen
  have hlen02 : (st2.sets.getD 0 []).length = len0 := by
    rw [hsets, getD_set_ne _ _ _ _ _ (by omega)]
    exact hlen0
  have hnon2 : ∀ i, i < st2.sets.length → 0 < (st2.sets.getD i []).length := by
    intro i hi
    rw [hslen2] at hi
    by_cases hip : i = pidx
    · subst hip
      rw [hsets, getD_set_self _ _ _ _ hidxlen]
      simp
    · rw [hsets, getD_set_ne _ _ _ _ _ fun hh => hip hh.symm]
      exact hnon i (by omega)
  have hne2 : 0 < (st2.sets.getD aidx []).length :=
    hnon2 aidx (by omega)
  have hkey : st2.conns.length = n + 1 ∧
      (∀ i, i < st2.conns.length →
        (st2.conns.getD i []).length = (st2.sets.getD i []).length) ∧
      edgeOK env.checkMotion st2.sets st2.conns ∧
      ReachInv len0 st2.conns st2.isStart := by
    rcases hconns with ⟨hgi, hc⟩ | ⟨hidxn, hc⟩
    · refine ⟨by rw [hc]; exact hclen, ?_, ?_, ?_⟩
      · intro i hi
        rw [hc] at hi ⊢
        rw [hsets, getD_set_ne _ _ _ _ _ (by omega)]
        exact hrow i hi
      · rw [hsets, hc]
        exact edgeOK_pushLayer pidx x hedge
      · intro i j hb
        rw [hc]
        rw [hisStart] at hb
        exact hreach i j (bAt_rowAppend _ _ _ _ hb)
    · have hidxc : pidx < st.conns.length := by omega
      refine ⟨by rw [hc, List.length_set]; exact hclen, ?_, ?_, ?_⟩
      · intro i hi
        rw [hc, List.length_set] at hi
        rw [hc, hsets]
        by_cases hii : i = pidx
        · subst hii
          rw [getD_set_self _ _ _ _ hidxc, getD_set_self _ _ _ _ hidxlen]
          simp only [List.length_append, List.length_singleton]
          rw [hrow i hi]
        · rw [getD_set_ne _ _ _ _ _ fun hh => hii hh.symm,
            getD_set_ne _ _ _ _ _ fun hh => hii hh.symm]
          exact hrow i hi
      · rw [hsets, hc]
        exact edgeOK_rowAppend pidx (edgeOK_pushLayer pidx x hedge)
      · intro i j hb
        rw [hc]
        rw [hisStart] at hb
        exact startReach_mono (connLE_rowAppend st.conns pidx) (hreach i j (bAt_rowAppend _ _ _ _ hb))
  obtain ⟨hclen2, hrow2, hedge2, hreach2⟩ := hkey
  obtain ⟨ha1, ha2, ha3, ha4, ha5, ha6, ha7⟩ :=
    afterAdd_inv env len0 n st2 aidx hslen2 hclen2 hrow2 hedge2 hreach2 haidx1 haidx2 hne2
  refine ⟨⟨?_, ?_, ?_, ?_, ?_, ?_, ?_, ?_⟩, ha7⟩
  · rw [ha1]
    exact hslen2
  · rw [ha2]
    exact hclen2
  · rw [ha1]
    exact hlen02
  · intro i hi
    rw [ha2] at hi
    rw [ha1, ha3 i]
    exact hrow2 i hi
  · rw [ha1]
    exact ha5
  · exact ha6
  · rw [ha4, hpdf2]
    exact fun c hc => hpdf c (mem_of_tail _ _ hc)
  · rw [ha1]
    exact hnon2

theorem p4Body_inv {σ : Type} [Inhabited σ] (env : FollowEnv σ) (len0 n : Nat)
    (st : P4State σ) (h : P4Inv env.checkMotion len0 n st) :
    P4Inv env.checkMotion len0 n (p4Body env st).1 ∧
    ((p4Body env st).2 = true → ∃ g, bAt (p4Body env st).1.isStart (n + 1) g = true) := by
  have hslen := h.slen
  have hgoalIdx : st.sets.length - 1 = n + 1 := by omega
  have hidx : 1 ≤ st.pdfChoices.headD (n + 1) ∧ st.pdfChoices.headD (n + 1) ≤ n + 1 := by
    cases hpc : st.pdfChoices with
    | nil => exact ⟨by simp, by simp⟩
    | cons c r =>
      have := h.pdf c (by rw [hpc]; exact List.mem_cons_self _ _)
      simpa using this
  have hpdfTail : ∀ c ∈ st.pdfChoices.tail, 1 ≤ c ∧ c ≤ n + 1 :=
    fun c hc => h.pdf c (mem_of_tail _ _ hc)
  simp only [p4Body, hgoalIdx]
  split
  · -- goal-layer branch
    split
    · -- a goal state was produced: push at layer n+1, then the `if (added)`
      -- block runs at the pdf-drawn `index` (the source uses `index`, not
      -- `goal_index`, at lines 585-611)
      exact p4_after_push_inv env len0 n st _ (n + 1) (st.pdfChoices.headD (n + 1)) _ h
        (by omega) (Nat.le_refl _) hidx.1 hidx.2
        rfl (Or.inl ⟨rfl, rfl⟩) rfl rfl
    · -- goal sampling exhausted: only flags and streams change
      exact ⟨⟨h.slen, h.clen, h.len0eq, h.hrow, h.hedge, h.hreach, hpdfTail, h.hnon⟩, by simp⟩
  · -- sampler branch
    rename_i htg
    have htg2 : ¬(st.pdfChoices.headD (n + 1) = n + 1) := by
      simp only [Bool.or_eq_true, beq_iff_eq, Bool.and_eq_true, not_or] at htg
      exact htg.1
    split
    · -- a state was produced
      split
      · -- and it is valid: push at layer `index`, then afterAdd at `index`
        exact p4_after_push_inv env len0 n st _ (st.pdfChoices.headD (n + 1))
          (st.pdfChoices.headD (n + 1)) _ h
          hidx.1 hidx.2 hidx.1 hidx.2 rfl (Or.inr ⟨by omega, rfl⟩) rfl rfl
      · -- invalid state: only streams change
        exact ⟨⟨h.slen, h.clen, h.len0eq, h.hrow, h.hedge, h.hreach, hpdfTail, h.hnon⟩, by simp⟩
    · -- sampling failed: only streams change
      exact ⟨⟨h.slen, h.clen, h.len0eq, h.hrow, h.hedge, h.hreach, hpdfTail, h.hnon⟩, by simp⟩

/-! Stage D: the phase-4 loop. -/

theorem p4Loop_inv {σ : Type} [Inhabited σ] (env : FollowEnv σ) (len0 n deadline : Nat) :
    ∀ fuel t st, deadline - t ≤ fuel → P4Inv env.checkMotion len0 n st →
      P4Inv env.checkMotion len0 n (p4Loop env deadline t st).1 ∧
      ((p4Loop env deadline t st).2 = true →
        ∃ g, bAt (p4Loop env deadline t st).1.isStart (n + 1) g = true) := by
  intro fuel
  induction fuel with
  | zero =>
    intro t st hf hinv
    have hp : ptcFired deadline t = true := by
      simp only [ptcFired, decide_eq_true_eq]
      omega
    rw [p4Loop, if_pos hp]
    exact ⟨hinv, by simp⟩
  | succ f ih =>
    intro t st hf hinv
    rw [p4Loop]
    by_cases hp : ptcFired deadline t = true
    · rw [if_pos hp]
      exact ⟨hinv, by simp⟩
    · rw [if_neg hp]
      obtain ⟨hinv2, hsolve⟩ := p4Body_inv env len0 n st hinv
      have ht : t < deadline := by
        simp only [ptcFired, decide_eq_true_eq] at hp
        omega
      rcases hbody : p4Body env st with ⟨st2, flag⟩
      rw [hbody] at hinv2 hsolve
      cases flag
      · exact ih (t + 1) st2 (by omega) hinv2
      · exact ⟨hinv2, fun _ => hsolve rfl⟩

/-! Stage E: the seeding phase (phase 1). -/

theorem seedOne_spec {σ : Type} (dl : Nat) (v : σ → Bool) :
    ∀ fuel t evs, dl - t ≤ fuel →
      t < (seedOne dl v t evs).2.1 ∧
      ((seedOne dl v t evs).1 = [] → dl ≤ (seedOne dl v t evs).2.1) := by
  intro fuel
  induction fuel with
  | zero =>
    intro t evs hf
    have hp : ptcFired dl t = true := by
      simp only [ptcFired, decide_eq_true_eq]
      omega
    rw [seedOne, if_pos hp]
    refine ⟨Nat.lt_succ_self t, fun _ => ?_⟩
    show dl ≤ t + 1
    simp only [ptcFired, decide_eq_true_eq] at hp
    omega
  | succ f ih =>
    intro t evs hf
    rw [seedOne]
    by_cases hp : ptcFired dl t = true
    · rw [if_pos hp]
      refine ⟨Nat.lt_succ_self t, fun _ => ?_⟩
      show dl ≤ t + 1
      simp only [ptcFired, decide_eq_true_eq] at hp
      omega
    · rw [if_neg hp]
      have ht : t < dl := by
        simp only [ptcFired, decide_eq_true_eq] at hp
        omega
      split
      · split
        · exact ⟨Nat.lt_succ_self t, fun h => by simp at h⟩
        · obtain ⟨h1, h2⟩ := ih (t + 1) evs.tail (by omega)
          exact ⟨Nat.lt_trans (Nat.lt_succ_self t) h1, h2⟩
      · obtain ⟨h1, h2⟩ := ih (t + 1) evs.tail (by omega)
        exact ⟨Nat.lt_trans (Nat.lt_succ_self t) h1, h2⟩

theorem seedLoop_spec {σ : Type} (dl : Nat) (v : σ → Bool) (n : Nat) :
    ∀ fuel i sets t evs, n - i ≤ fuel → sets.length = n + 2 →
      (∀ j, 1 ≤ j → j ≤ i → (dl ≤ t ∨ sets.getD j ([] : List σ) ≠ [])) →
      (seedLoop dl v n i sets t evs).1.length = sets.length ∧
      (seedLoop dl v n i sets t evs).1.getD 0 [] = sets.getD 0 [] ∧
      t ≤ (seedLoop dl v n i sets t evs).2.1 ∧
      (∀ j, 1 ≤ j → j ≤ n →
        (dl ≤ (seedLoop dl v n i sets t evs).2.1 ∨
          (seedLoop dl v n i sets t evs).1.getD j [] ≠ [])) ∧
      (∀ j, n < j → (seedLoop dl v n i sets t evs).1.getD j [] = sets.getD j []) := by
  intro fuel
  induction fuel with
  | zero =>
    intro i sets t evs hf hsl hpre
    have hni : ¬i < n := by omega
    rw [seedLoop, if_neg hni]
    refine ⟨rfl, rfl, Nat.le_refl t, ?_, fun j hj => rfl⟩
    intro j h1 h2
    exact hpre j h1 (by omega)
  | succ f ih =>
    intro i sets t evs hf hsl hpre
    rw [seedLoop]
    by_cases hni : i < n
    · rw [if_pos hni]
      by_cases hp : ptcFired dl t = true
      · rw [if_pos hp]
        have hdlt : dl ≤ t := by
          simp only [ptcFired, decide_eq_true_eq] at hp
          exact hp
        refine ⟨rfl, rfl, Nat.le_succ t, ?_, fun j hj => rfl⟩
        intro j h1 h2
        refine Or.inl ?_
        show dl ≤ t + 1
        omega
      · rw [if_neg hp]
        obtain ⟨hs1, hs2⟩ := seedOne_spec dl v dl (t + 1) evs (by omega)
        have hpre2 : ∀ j, 1 ≤ j → j ≤ i + 1 →
            (dl ≤ (seedOne dl v (t + 1) evs).2.1 ∨
              (sets.set (i + 1) (seedOne dl v (t + 1) evs).1).getD j ([] : List σ) ≠ []) := by
          intro j h1 h2
          by_cases hji : j = i + 1
          · subst hji
            by_cases hre : (seedOne dl v (t + 1) evs).1 = []
            · exact Or.inl (hs2 hre)
            · refine Or.inr ?_
              rw [getD_set_self _ _ _ _ (by omega)]
              exact hre
          · rcases hpre j h1 (by omega) with hd | hne
            · exact Or.inl (by omega)
            · refine Or.inr ?_
              rw [getD_set_ne _ _ _ _ _ (by omega)]
              exact hne
        have hres := ih (i + 1) (sets.set (i + 1) (seedOne dl v (t + 1) evs).1)
          (seedOne dl v (t + 1) evs).2.1 (seedOne dl v (t + 1) evs).2.2 (by omega)
          (by rw [List.length_set]; exact hsl) hpre2
        refine ⟨?_, ?_, ?_, ?_, ?_⟩
        · exact hres.1.trans (List.length_set ..)
        · exact hres.2.1.trans (getD_set_ne _ _ _ _ _ (by omega))
        · exact Nat.le_trans (by omega) hres.2.2.1
        · exact hres.2.2.2.1
        · intro j hj
          exact (hres.2.2.2.2 j hj).trans (getD_set_ne _ _ _ _ _ (by omega))
    · rw [if_neg hni]
      refine ⟨rfl, rfl, Nat.le_refl t, ?_, fun j hj => rfl⟩
      intro j h1 h2
      exact hpre j h1 (by omega)

/-! Stage F: the initial connection structure and `is_start` initialisation. -/

theorem connLE_trans {a b c : List (List (List Nat))} (h1 : connLE a b) (h2 : connLE b c) :
    connLE a c :=
  fun i j k h => h2 i j k (h1 i j k h)

theorem connLE_refl (c : List (List (List Nat))) : connLE c c :=
  fun _ _ _ h => h

theorem getD_cons_replicate {α : Type _} (x : α) (m j : Nat) (d : α) (h1 : 1 ≤ j) :
    ((x :: List.replicate m d) : List α).getD j d = d := by
  cases j with
  | zero => omega
  | succ k =>
    rw [List.getD_cons_succ]
    exact getD_replicate_self m k d

theorem initialConnRows_length {σ : Type} [Inhabited σ] (cm : σ → σ → Bool)
    (sets : List (List σ)) : (initialConnRows cm sets).length = sets.length - 1 := by
  unfold initialConnRows
  simp

theorem initialConnRows_getD {σ : Type} [Inhabited σ] (cm : σ → σ → Bool)
    (sets : List (List σ)) (i : Nat) (h : i < sets.length - 1) :
    (initialConnRows cm sets).getD i [] =
      (if cm (setsAt sets i 0) (setsAt sets (i + 1) 0) then
        (List.replicate (sets.getD i []).length ([] : List Nat)).set 0 [0]
      else List.replicate (sets.getD i []).length ([] : List Nat)) := by
  unfold initialConnRows
  rw [List.getD_eq_getElem _ _ (by simpa using h)]
  rw [List.getElem_map, List.getElem_range]

theorem initialConnRows_rowLen {σ : Type} [Inhabited σ] (cm : σ → σ → Bool)
    (sets : List (List σ)) (i : Nat) (hi : i < sets.length - 1) :
    ((initialConnRows cm sets).getD i []).length = (sets.getD i []).length := by
  rw [initialConnRows_getD cm sets i hi]
  by_cases hcm : cm (setsAt sets i 0) (setsAt sets (i + 1) 0) = true
  · rw [if_pos hcm]
    rw [List.length_set, List.length_replicate]
  · rw [if_neg hcm]
    rw [List.length_replicate]

theorem initialConnRows_mem {σ : Type} [Inhabited σ] (cm : σ → σ → Bool)
    (sets : List (List σ)) (i j k : Nat)
    (h : k ∈ cAt (initialConnRows cm sets) i j) :
    j = 0 ∧ k = 0 ∧ i < sets.length - 1 ∧ 0 < (sets.getD i []).length ∧
      cm (setsAt sets i 0) (setsAt sets (i + 1) 0) = true := by
  have hi : i < (initialConnRows cm sets).length := mem_cAt_lt_length _ _ _ _ h
  rw [initialConnRows_length] at hi
  unfold cAt at h
  rw [initialConnRows_getD cm sets i hi] at h
  by_cases hcm : cm (setsAt sets i 0) (setsAt sets (i + 1) 0) = true
  · rw [if_pos hcm] at h
    by_cases hL : 0 < (sets.getD i []).length
    · by_cases hj : j = 0
      · subst hj
        rw [getD_set_self _ _ _ _ (by simpa using hL)] at h
        simp at h
        exact ⟨rfl, h, hi, hL, hcm⟩
      · rw [getD_set_ne _ _ _ _ _ fun hh => hj hh.symm] at h
        rw [getD_replicate_self] at h
        simp at h
    · have h0 : (sets.getD i []).length = 0 := by omega
      rw [h0] at h
      simp at h
  · rw [if_neg hcm] at h
    rw [getD_replicate_self] at h
    simp at h

theorem initialConnRows_edge {σ : Type} [Inhabited σ] (cm : σ → σ → Bool)
    (sets : List (List σ)) (i : Nat) (hi : i < sets.length - 1)
    (hL : 0 < (sets.getD i []).length)
    (hcm : cm (setsAt sets i 0) (setsAt sets (i + 1) 0) = true) :
    0 ∈ cAt (initialConnRows cm sets) i 0 := by
  unfold cAt
  rw [initialConnRows_getD cm sets i hi, if_pos hcm,
    getD_set_self _ _ _ _ (by simpa using hL)]
  simp

theorem initialConnOk_all {σ : Type} [Inhabited σ] (cm : σ → σ → Bool)
    (sets : List (List σ)) (h : initialConnOk cm sets = true) (i : Nat)
    (hi : i < sets.length - 1) :
    cm (setsAt sets i 0) (setsAt sets (i + 1) 0) = true := by
  unfold initialConnOk at h
  exact List.all_eq_true.mp h i (List.mem_range.mpr hi)

theorem initialConnRows_edgeOK {σ : Type} [Inhabited σ] (cm : σ → σ → Bool)
    (sets : List (List σ)) (hne : ∀ i, i < sets.length → sets.getD i [] ≠ []) :
    edgeOK cm sets (initialConnRows cm sets) := by
  intro i j k hk
  obtain ⟨hj, hk0, hi, hL, hcm⟩ := initialConnRows_mem cm sets i j k hk
  subst hj
  subst hk0
  refine ⟨hL, ?_, hcm⟩
  exact List.length_pos.mpr (hne (i + 1) (by omega))

theorem extraStartConnections_spec {σ : Type} [Inhabited σ] (cm : σ → σ → Bool)
    (sets : List (List σ)) (conns : List (List (List Nat)))
    (hedge : edgeOK cm sets conns)
    (hne1 : 0 < (sets.getD 1 []).length) :
    edgeOK cm sets (extraStartConnections cm sets conns) ∧
    connLE conns (extraStartConnections cm sets conns) ∧
    (extraStartConnections cm sets conns).length = conns.length ∧
    ∀ i, ((extraStartConnections cm sets conns).getD i []).length =
      (conns.getD i []).length := by
  unfold extraStartConnections
  refine foldl_preserves
    (fun acc => edgeOK cm sets acc ∧ connLE conns acc ∧ acc.length = conns.length ∧
      ∀ i, (acc.getD i []).length = (conns.getD i []).length)
    _ _ ?_ conns ⟨hedge, connLE_refl conns, rfl, fun _ => rfl⟩
  intro acc i hi hacc
  obtain ⟨hE, hLE, hL, hRL⟩ := hacc
  have hi2 : i < (sets.getD 0 []).length := List.mem_range.mp hi
  by_cases hi0 : i = 0
  · rw [if_pos hi0]
    exact ⟨hE, hLE, hL, hRL⟩
  · rw [if_neg hi0]
    by_cases hcm : cm (setsAt sets 0 i) (setsAt sets 1 0) = true
    · rw [if_pos hcm]
      refine ⟨edgeOK_connPush hE 0 i 0 hi2 hne1 hcm,
        connLE_trans hLE (connLE_connPush acc 0 i 0), ?_, ?_⟩
      · rw [connPush_length]
        exact hL
      · intro i2
        rw [connPush_rowLen]
        exact hRL i2
    · rw [if_neg hcm]
      exact ⟨hE, hLE, hL, hRL⟩

theorem initIsStart_getD {σ : Type} (sets : List (List σ)) (i : Nat)
    (hi : i < sets.length) :
    (initIsStart sets).getD i [] =
      if i = 0 then List.replicate (sets.getD 0 []).length true
      else List.replicate (sets.getD i []).length false := by
  unfold initIsStart
  rw [List.getD_eq_getElem _ _ (by simpa using hi), List.getElem_map, List.getElem_range]

theorem initIsStart_mem {σ : Type} (sets : List (List σ)) (i j : Nat)
    (h : bAt (initIsStart sets) i j = true) : i = 0 ∧ j < (sets.getD 0 []).length := by
  unfold bAt at h
  by_cases hi : i < sets.length
  · rw [initIsStart_getD sets i hi] at h
    by_cases hi0 : i = 0
    · subst hi0
      rw [if_pos rfl] at h
      refine ⟨rfl, ?_⟩
      by_cases hj : j < (sets.getD 0 []).length
      · exact hj
      · rw [List.getD_eq_default _ _ (by simpa using Nat.le_of_not_lt hj)] at h
        simp at h
    · rw [if_neg hi0] at h
      rw [getD_replicate_self] at h
      simp at h
  · rw [List.getD_eq_default (initIsStart sets) []
      (show (initIsStart sets).length ≤ i by
        simp only [initIsStart, List.length_map, List.length_range]
        omega)] at h
    simp at h

theorem initialPropagation_reachInv (len0 : Nat) (conns : List (List (List Nat)))
    (startCount : Nat) (isStart : List (List Bool))
    (h : ReachInv len0 conns isStart) (hsc : startCount ≤ len0) :
    ReachInv len0 conns (initialPropagation conns startCount isStart) := by
  unfold initialPropagation
  refine foldl_preserves (ReachInv len0 conns) _ _ ?_ isStart h
  intro m i hi hm
  have hi2 : i < startCount := List.mem_range.mp hi
  exact propagate_reachInv len0 conns conns.length 0 i m hm ⟨i, by omega, ChainR.refl 0 i⟩

/-! Stage G: extraction of the solution path. -/

theorem findSolutionPath_complete {σ : Type} [Inhabited σ] (sets : List (List σ))
    (conns : List (List (List Nat))) :
    ∀ i j, ReachGoal conns i j → ∀ fuel, conns.length + 1 ≤ fuel + i →
      ∃ p, findSolutionPath sets conns fuel i j = some p := by
  intro i j hrg
  induction hrg with
  | base g =>
    intro fuel hf
    cases fuel with
    | zero => omega
    | succ f =>
      rw [findSolutionPath, if_pos rfl]
      exact ⟨_, rfl⟩
  | @step i2 j2 k hk hrg2 ih =>
    intro fuel hf
    have hi : i2 < conns.length := mem_cAt_lt_length conns i2 j2 k hk
    cases fuel with
    | zero => omega
    | succ f =>
      obtain ⟨p, hp⟩ := ih f (by omega)
      rw [findSolutionPath, if_neg (by omega)]
      have hs := firstSome_isSome
        (fun k2 =>
          match findSolutionPath sets conns f (i2 + 1) k2 with
          | some p2 => some (p2 ++ [setsAt sets i2 j2])
          | none => none)
        (cAt conns i2 j2) k hk
        (by
          show (match findSolutionPath sets conns f (i2 + 1) k with
            | some p2 => some (p2 ++ [setsAt sets i2 j2])
            | none => none).isSome = true
          rw [hp]
          rfl)
      obtain ⟨q, hq⟩ := Option.isSome_iff_exists.mp hs
      exact ⟨q, hq⟩

theorem findSolutionPath_sound {σ : Type} [Inhabited σ] (sets : List (List σ))
    (conns : List (List (List Nat))) :
    ∀ fuel i j p, findSolutionPath sets conns fuel i j = some p →
      PathRel sets conns i j p := by
  intro fuel
  induction fuel with
  | zero =>
    intro i j p h
    simp [findSolutionPath] at h
  | succ f ih =>
    intro i j p h
    rw [findSolutionPath] at h
    by_cases hi : i = conns.length
    · rw [if_pos hi] at h
      injection h with h2
      subst hi
      rw [← h2]
      exact PathRel.goal j
    · rw [if_neg hi] at h
      obtain ⟨k, hk, hfk⟩ := firstSome_eq_some _ _ _ h
      cases hrec : findSolutionPath sets conns f (i + 1) k with
      | none =>
        rw [hrec] at hfk
        have hfk2 : (none : Option (List σ)) = some p := hfk
        exact Option.noConfusion hfk2
      | some p2 =>
        rw [hrec] at hfk
        have hfk2 : some (p2 ++ [setsAt sets i j]) = some p := hfk
        injection hfk2 with h3
        rw [← h3]
        exact PathRel.cons hk (ih (i + 1) k p2 hrec)

theorem pathRel_length {σ : Type} [Inhabited σ] {sets : List (List σ)}
    {conns : List (List (List Nat))} :
    ∀ {i j : Nat} {p : List σ}, PathRel sets conns i j p →
      p.length + i = conns.length + 1 := by
  intro i j p h
  induction h with
  | goal j =>
    simp only [List.length_singleton]
    omega
  | @cons i2 j2 k2 p2 hk hrel ih =>
    simp only [List.length_append, List.length_singleton]
    omega

theorem pathRel_head {σ : Type} [Inhabited σ] {sets : List (List σ)}
    {conns : List (List (List Nat))} :
    ∀ {i j : Nat} {p : List σ}, PathRel sets conns i j p →
      p.reverse.headD default = setsAt sets i j := by
  intro i j p h
  induction h with
  | goal j => rfl
  | @cons i2 j2 k2 p2 hk hrel ih => simp [List.reverse_append]

theorem pathRel_mem {σ : Type} [Inhabited σ] {cm : σ → σ → Bool} {sets : List (List σ)}
    {conns : List (List (List Nat))} (hedge : edgeOK cm sets conns) :
    ∀ {i j : Nat} {p : List σ}, PathRel sets conns i j p →
      j < (sets.getD i []).length →
      ∀ m, m < p.length → p.reverse.getD m default ∈ sets.getD (i + m) [] := by
  intro i j p h
  induction h with
  | goal g =>
    intro hj m hm
    simp only [List.length_singleton] at hm
    have hm0 : m = 0 := by omega
    subst hm0
    show setsAt sets conns.length g ∈ sets.getD (conns.length + 0) []
    rw [Nat.add_zero]
    exact getD_mem _ _ _ hj
  | @cons i2 j2 k2 p2 hk hrel ih =>
    intro hj m hm
    have hkb : k2 < (sets.getD (i2 + 1) []).length := (hedge _ _ _ hk).2.1
    rw [List.reverse_append]
    simp only [List.reverse_singleton, List.singleton_append]
    cases m with
    | zero =>
      rw [List.getD_cons_zero]
      show setsAt sets i2 j2 ∈ sets.getD (i2 + 0) []
      rw [Nat.add_zero]
      exact getD_mem _ _ _ hj
    | succ m2 =>
      rw [List.getD_cons_succ]
      have harith : i2 + (m2 + 1) = (i2 + 1) + m2 := by omega
      rw [harith]
      refine ih hkb m2 ?_
      simp only [List.length_append, List.length_singleton] at hm
      omega

theorem pathRel_edges {σ : Type} [Inhabited σ] {cm : σ → σ → Bool}
    {sets : List (List σ)} {conns : List (List (List Nat))}
    (hedge : edgeOK cm sets conns) :
    ∀ {i j : Nat} {p : List σ}, PathRel sets conns i j p →
      ∀ m, m + 1 < p.length →
        cm (p.reverse.getD m default) (p.reverse.getD (m + 1) default) = true := by
  intro i j p h
  induction h with
  | goal g =>
    intro m hm
    simp only [List.length_singleton] at hm
    omega
  | @cons i2 j2 k2 p2 hk hrel ih =>
    intro m hm
    rw [List.reverse_append]
    simp only [List.reverse_singleton, List.singleton_append]
    cases m with
    | zero =>
      rw [List.getD_cons_zero, List.getD_cons_succ, getD_zero_headD, pathRel_head hrel]
      exact (hedge _ _ _ hk).2.2
    | succ m2 =>
      rw [List.getD_cons_succ, List.getD_cons_succ]
      refine ih m2 ?_
      simp only [List.length_append, List.length_singleton] at hm
      omega

theorem computeSolution_some {σ : Type} [Inhabited σ] (sets : List (List σ))
    (conns : List (List (List Nat))) (s : Nat)
    (hs : s < (sets.getD 0 []).length) (hrg : ReachGoal conns 0 s) :
    ∃ q, computeSolution sets conns = some q := by
  obtain ⟨p, hp⟩ := findSolutionPath_complete sets conns 0 s hrg (conns.length + 1) (by omega)
  unfold computeSolution
  have hsome := firstSome_isSome
    (fun i => findSolutionPath sets conns (conns.length + 1) 0 i)
    (List.range (sets.getD 0 []).length) s (List.mem_range.mpr hs)
    (by
      show (findSolutionPath sets conns (conns.length + 1) 0 s).isSome = true
      rw [hp]
      rfl)
  obtain ⟨q0, hq0⟩ := Option.isSome_iff_exists.mp hsome
  refine ⟨q0.reverse, ?_⟩
  rw [hq0]
  rfl

theorem computeSolution_props {σ : Type} [Inhabited σ] {cm : σ → σ → Bool}
    {sets : List (List σ)} {conns : List (List (List Nat))}
    (hedge : edgeOK cm sets conns) {q : List σ}
    (h : computeSolution sets conns = some q) :
    q.length = conns.length + 1 ∧
    (∀ m, m < q.length → q.getD m default ∈ sets.getD m []) ∧
    (∀ m, m + 1 < q.length → cm (q.getD m default) (q.getD (m + 1) default) = true) := by
  unfold computeSolution at h
  obtain ⟨p0, hfold, hq⟩ := Option.map_eq_some'.mp h
  obtain ⟨i, hi, hfi⟩ := firstSome_eq_some _ _ _ hfold
  have hi2 : i < (sets.getD 0 []).length := List.mem_range.mp hi
  have hfi2 : findSolutionPath sets conns (conns.length + 1) 0 i = some p0 := hfi
  have hrel := findSolutionPath_sound sets conns (conns.length + 1) 0 i p0 hfi2
  subst hq
  refine ⟨?_, ?_, ?_⟩
  · rw [List.length_reverse]
    have := pathRel_length hrel
    omega
  · intro m hm
    rw [List.length_reverse] at hm
    have := pathRel_mem hedge hrel hi2 m hm
    simpa using this
  · intro m hm
    rw [List.length_reverse] at hm
    exact pathRel_edges hedge hrel m hm

theorem reachGoal_all_zero (conns : List (List (List Nat)))
    (h : ∀ i, i < conns.length → 0 ∈ cAt conns i 0) :
    ∀ d i, i + d = conns.length → ReachGoal conns i 0 := by
  intro d
  induction d with
  | zero =>
    intro i hi
    have h2 : i = conns.length := by omega
    subst h2
    exact ReachGoal.base 0
  | succ d2 ih =>
    intro i hi
    exact ReachGoal.step (h i (by omega)) (ih (i + 1) (by omega))

/-! Stage H: assembling the Follower correctness statement. -/

theorem followPhase2_exact {σ : Type} [Inhabited σ] (env : FollowEnv σ) (n deadline t1 : Nat)
    (evs1 goalRest : List (Option σ)) (pdf : List Nat) (coins : List Bool)
    (sets2 : List (List σ))
    (hpdf : ∀ c ∈ pdf, 1 ≤ c ∧ c ≤ n + 1)
    (hslen : sets2.length = n + 2)
    (hne : ∀ i, i < sets2.length → sets2.getD i [] ≠ [])
    (hex : (followPhase2 env deadline t1 evs1 goalRest pdf coins sets2).status =
      PlannerStatus.EXACT_SOLUTION) :
    ∃ p, (followPhase2 env deadline t1 evs1 goalRest pdf coins sets2).path = some p ∧
      p.length = n + 2 ∧
      (∀ k, k < n + 2 →
        p.getD k default ∈
          (followPhase2 env deadline t1 evs1 goalRest pdf coins sets2).sets.getD k []) ∧
      (∀ k, k + 1 < n + 2 →
        env.checkMotion (p.getD k default) (p.getD (k + 1) default) = true) := by
  have hedge0 : edgeOK env.checkMotion sets2 (initialConnRows env.checkMotion sets2) :=
    initialConnRows_edgeOK env.checkMotion sets2 hne
  have hconnlen : (initialConnRows env.checkMotion sets2).length = n + 1 := by
    rw [initialConnRows_length, hslen]
    omega
  have hlen0pos : 0 < (sets2.getD 0 []).length :=
    List.length_pos.mpr (hne 0 (by omega))
  simp only [followPhase2]
  simp only [followPhase2] at hex
  by_cases hic : initialConnOk env.checkMotion sets2 = true
  · rw [if_pos hic] at hex ⊢
    have hedges : ∀ i, i < (initialConnRows env.checkMotion sets2).length →
        0 ∈ cAt (initialConnRows env.checkMotion sets2) i 0 := by
      intro i hi
      rw [hconnlen] at hi
      refine initialConnRows_edge env.checkMotion sets2 i (by omega) ?_ ?_
      · exact List.length_pos.mpr (hne i (by omega))
      · exact initialConnOk_all env.checkMotion sets2 hic i (by omega)
    have hrg : ReachGoal (initialConnRows env.checkMotion sets2) 0 0 :=
      reachGoal_all_zero _ hedges (initialConnRows env.checkMotion sets2).length 0 (by omega)
    obtain ⟨q, hq⟩ :=
      computeSolution_some sets2 (initialConnRows env.checkMotion sets2) 0 hlen0pos hrg
    obtain ⟨hlen, hmem, hedgesq⟩ := computeSolution_props hedge0 hq
    refine ⟨q, hq, ?_, ?_, ?_⟩
    · rw [hlen, hconnlen]
    · intro k hk
      exact hmem k (by rw [hlen, hconnlen]; omega)
    · intro k hk
      exact hedgesq k (by rw [hlen, hconnlen]; omega)
  · rw [if_neg hic] at hex ⊢
    have hne1 : 0 < (sets2.getD 1 []).length := List.length_pos.mpr (hne 1 (by omega))
    obtain ⟨hE1, hLE1, hL1, hRL1⟩ := extraStartConnections_spec env.checkMotion sets2
      (initialConnRows env.checkMotion sets2) hedge0 hne1
    have hclen1 : (extraStartConnections env.checkMotion sets2
        (initialConnRows env.checkMotion sets2)).length = n + 1 := by
      rw [hL1, hconnlen]
    have hreach0 : ReachInv (sets2.getD 0 []).length
        (extraStartConnections env.checkMotion sets2 (initialConnRows env.checkMotion sets2))
        (initIsStart sets2) := by
      intro i j hb
      obtain ⟨hi0, hj0⟩ := initIsStart_mem sets2 i j hb
      subst hi0
      exact ⟨j, hj0, ChainR.refl 0 j⟩
    set st0 : P4State σ :=
      { sets := sets2
        conns := extraStartConnections env.checkMotion sets2
          (initialConnRows env.checkMotion sets2)
        isStart := initialPropagation
          (extraStartConnections env.checkMotion sets2
            (initialConnRows env.checkMotion sets2))
          (sets2.getD 0 []).length (initIsStart sets2)
        addingGoals := true
        sampleEvents := evs1
        goalEvents := goalRest
        pdfChoices := pdf
        coinFlips := coins } with hst0
    have hinv0 : P4Inv env.checkMotion (sets2.getD 0 []).length n st0 := by
      rw [hst0]
      refine ⟨hslen, hclen1, rfl, ?_, hE1, ?_, hpdf, ?_⟩
      · intro i hi
        rw [hclen1] at hi
        rw [hRL1 i, initialConnRows_rowLen env.checkMotion sets2 i (by rw [hslen]; omega)]
      · exact initialPropagation_reachInv _ _ _ _ hreach0 (Nat.le_refl _)
      · exact fun i hi => List.length_pos.mpr (hne i hi)
    obtain ⟨hinvF, hsolveF⟩ := p4Loop_inv env (sets2.getD 0 []).length n deadline
      (deadline - t1) t1 st0 (Nat.le_refl _) hinv0
    by_cases hr2 : (p4Loop env deadline t1 st0).2 = true
    · rw [if_pos hr2] at hex ⊢
      obtain ⟨g2, hg2⟩ := hsolveF hr2
      obtain ⟨s, hs, hchain⟩ := hinvF.hreach _ _ hg2
      have hrg : ReachGoal (p4Loop env deadline t1 st0).1.conns 0 s := by
        refine ChainR.toReachGoal hchain ?_
        have hb := @ReachGoal.base ((p4Loop env deadline t1 st0).1.conns) g2
        rwa [hinvF.clen] at hb
      have hs2 : s < ((p4Loop env deadline t1 st0).1.sets.getD 0 []).length := by
        rw [hinvF.len0eq]
        exact hs
      obtain ⟨q, hq⟩ := computeSolution_some _ _ s hs2 hrg
      obtain ⟨hlen, hmem, hedgesq⟩ := computeSolution_props hinvF.hedge hq
      refine ⟨q, hq, ?_, ?_, ?_⟩
      · rw [hlen, hinvF.clen]
      · intro k hk
        exact hmem k (by rw [hlen, hinvF.clen]; omega)
      · intro k hk
        exact hedgesq k (by rw [hlen, hinvF.clen]; omega)
    · rw [if_neg hr2] at hex
      simp at hex

/-- C1: every run of `Follower::follow` over samplers `S_1 .. S_n` that
returns `EXACT_SOLUTION` records (via `computeSolution` / `addSolutionPath`,
lines 679-695) a path with exactly `n + 2` waypoints, the `k`-th waypoint
drawn from layer `sets[k]` (start layer, the `n` sampler layers, the goal
layer, in order), and every adjacent pair passed `checkMotion` before its
edge was recorded (lines 513-521, 566-575, 589-598, 657-677). -/
theorem follow_exact_solution_path {σ : Type} [Inhabited σ] (env : FollowEnv σ) (n : Nat)
    (o : FollowOracle σ) (hwf : OracleWF o n)
    (hex : (followRun env n o).status = PlannerStatus.EXACT_SOLUTION) :
    ∃ p, (followRun env n o).path = some p ∧
      p.length = n + 2 ∧
      (∀ k, k < n + 2 → p.getD k default ∈ (followRun env n o).sets.getD k []) ∧
      (∀ k, k + 1 < n + 2 →
        env.checkMotion (p.getD k default) (p.getD (k + 1) default) = true) := by
  simp only [followRun] at hex ⊢
  by_cases hg : (!o.goalSampleable) = true
  · rw [if_pos hg] at hex
    simp at hex
  · rw [if_neg hg] at hex ⊢
    by_cases hs0 : o.startStates.isEmpty = true
    · rw [if_pos hs0] at hex
      simp at hex
    · rw [if_neg hs0] at hex ⊢
      set r1 := seedLoop o.ptcDeadline env.isValid n 0
        (o.startStates :: List.replicate (n + 1) ([] : List σ)) 0 o.sampleEvents with hr1
      have hseed := seedLoop_spec o.ptcDeadline env.isValid n n 0
        (o.startStates :: List.replicate (n + 1) ([] : List σ)) 0 o.sampleEvents
        (by omega) (by simp) (fun j h1 h2 => absurd h2 (by omega))
      by_cases hfire : ptcFired o.ptcDeadline r1.2.1 = true
      · rw [if_pos hfire] at hex
        simp at hex
      · rw [if_neg hfire] at hex ⊢
        have hnotfired : ¬o.ptcDeadline ≤ r1.2.1 := by
          simp only [ptcFired, decide_eq_true_eq] at hfire
          exact hfire
        rcases hge : o.goalEvents.headD none with _ | g
        · rw [hge] at hex
          simp at hex
        · rw [hge] at hex
          replace hex : (followPhase2 env o.ptcDeadline (r1.2.1 + 1) r1.2.2
              o.goalEvents.tail o.pdfChoices o.coinFlips
              (r1.1.set (n + 1) (r1.1.getD (n + 1) [] ++ [g]))).status =
              PlannerStatus.EXACT_SOLUTION := hex
          have hlen1 : r1.1.length = n + 2 := by
            rw [hseed.1]
            simp
          have hslen2 : (r1.1.set (n + 1) (r1.1.getD (n + 1) [] ++ [g])).length = n + 2 := by
            rw [List.length_set, hlen1]
          have hne : ∀ i, i < (r1.1.set (n + 1) (r1.1.getD (n + 1) [] ++ [g])).length →
              (r1.1.set (n + 1) (r1.1.getD (n + 1) [] ++ [g])).getD i [] ≠ [] := by
            intro i hi
            rw [hslen2] at hi
            by_cases hin : i = n + 1
            · subst hin
              rw [getD_set_self _ _ _ _ (by omega)]
              simp
            · rw [getD_set_ne _ _ _ _ _ fun hh => hin hh.symm]
              by_cases hiz : i = 0
              · subst hiz
                rw [hseed.2.1]
                simp only [List.getD_cons_zero]
                intro hnil
                rw [hnil] at hs0
                exact hs0 rfl
              · rcases hseed.2.2.2.1 i (by omega) (by omega) with hd | hne2
                · exact absurd hd hnotfired
                · exact hne2
          obtain ⟨p, hp1, hp2, hp3, hp4⟩ := followPhase2_exact env n o.ptcDeadline
            (r1.2.1 + 1) r1.2.2 o.goalEvents.tail o.pdfChoices o.coinFlips
            (r1.1.set (n + 1) (r1.1.getD (n + 1) [] ++ [g])) hwf hslen2 hne hex
          exact ⟨p, hp1, hp2, hp3, hp4⟩

/-- Concrete evaluation of the trivial follower run used by the C1 witness:
with no sampler layers the first-sample heuristic connects start to goal
immediately. -/
theorem followRun_FW_eval : followRun envFW 0 oracleFW =
    { status := PlannerStatus.EXACT_SOLUTION, path := some [10, 99]
      sets := [[10], [99]], conns := [[[0]]] } := by
  simp only [followRun]
  rw [seedLoop]
  decide

/-- Witness for C1: the trivial follower run (one start and one goal state,
no sampler layers) returns `EXACT_SOLUTION` and its recorded path satisfies
the conclusion of `follow_exact_solution_path`. -/
theorem follow_exact_solution_path_witness :
    OracleWF oracleFW 0 ∧
    (followRun envFW 0 oracleFW).status = PlannerStatus.EXACT_SOLUTION ∧
    ∃ p, (followRun envFW 0 oracleFW).path = some p ∧
      p.length = 0 + 2 ∧
      (∀ k, k < 0 + 2 → p.getD k default ∈ (followRun envFW 0 oracleFW).sets.getD k []) ∧
      (∀ k, k + 1 < 0 + 2 →
        envFW.checkMotion (p.getD k default) (p.getD (k + 1) default) = true) :=
  ⟨by intro c hc; simp [oracleFW] at hc,
   by rw [followRun_FW_eval],
   follow_exact_solution_path envFW 0 oracleFW
     (by intro c hc; simp [oracleFW] at hc)
     (by rw [followRun_FW_eval])⟩

end OmplInterface
